import Mathlib

/-!
Verification development for the solar electrical design & BOM engine
of this repository (TypeScript sources under src/).

Modelling conventions:
- JavaScript numbers are modelled as exact rationals (ℚ). Decimal literals
  are taken at their mathematical value.
- The one square root the code computes, Math.sqrt(3), is modelled by its
  exact IEEE-754 double value (a rational), and functions that use it are
  additionally parameterised over that value where helpful.
- Optional / nullable TypeScript fields become Option.
- JavaScript truthiness on numbers (x || y) is modelled explicitly:
  0 is the only falsy rational here.
- Error and warning messages (French display strings built by template
  interpolation) are modelled as structured values; each constructor's doc
  comment names the message it stands for.  Purely cosmetic display-only
  string fields (composition labels, basis-detail strings) are omitted from
  the records; no claim mentions them.
-/

namespace EssaiPV

/-- Truthiness helper for JavaScript `a || b` on numbers: 0 is falsy. -/
def jsOr (a b : ℚ) : ℚ := if a = 0 then b else a

/-- JavaScript Math.round: round half toward positive infinity. -/
def jsRound (x : ℚ) : ℤ := ⌊x + 1 / 2⌋

/-- JavaScript Math.ceil. -/
def jsCeil (x : ℚ) : ℤ := ⌈x⌉

/-- Models parseFloat(x.toFixed(d)): round to d decimal places. -/
def toFixedVal (d : ℕ) (x : ℚ) : ℚ := (jsRound (x * 10 ^ d) : ℚ) / 10 ^ d

/-- Substring test, modelling JavaScript String.prototype.includes,
expressed on the character lists. -/
def containsSub (s pat : String) : Bool :=
  (List.range (s.data.length + 1)).any (fun i => List.isPrefixOf pat.data (s.data.drop i))

/-- String.prototype.toUpperCase, character by character. -/
def strToUpper (s : String) : String := String.mk (s.data.map Char.toUpper)

/-! ## Standards Table Service (src/unnamed/part_005, standardsService)

Lookup tables mapping an AC cable cross-section to the maximum admissible
protective-device rating, under a standard and a pessimistic profile. -/

/-- Protection status returned by the standards service. -/
inductive ProtectionStatus where
  | ok
  | info
  | danger
deriving Repr, DecidableEq

/-- Source: getMaxInForSectionStandard (part_005 lines 67-72).
Standard-profile maximum device rating per section; null off-table. -/
def getMaxInForSectionStandard (sec : ℚ) : Option ℚ :=
  if sec = 2.5 then some 25
  else if sec = 6 then some 40
  else if sec = 10 then some 50
  else if sec = 16 then some 63
  else if sec = 25 then some 80
  else none

/-- Source: getMaxInForSectionPessimistic (part_005 lines 74-78).
Pessimistic-profile maximum device rating per section; null off-table. -/
def getMaxInForSectionPessimistic (sec : ℚ) : Option ℚ :=
  if sec = 2.5 then some 20
  else if sec = 6 then some 32
  else if sec = 10 then some 40
  else if sec = 16 then some 63
  else if sec = 25 then some 80
  else none

/-- Source: getMinSectionForIn (part_005 lines 81-87). -/
def getMinSectionForIn (inA : ℚ) : ℚ :=
  if inA ≤ 20 then 2.5
  else if inA ≤ 32 then 6
  else if inA ≤ 40 then 10
  else if inA ≤ 63 then 16
  else 25

/-- Source: isProtectionTooHighForSection (part_005 lines 92-96).
True when the rating exceeds the standard-profile maximum. -/
def isProtectionTooHighForSection (sec inA : ℚ) : Bool :=
  match getMaxInForSectionStandard sec with
  | none => false
  | some maxStd => inA > maxStd

/-- Source: getProtectionStatusForSection (part_005 lines 102-109). -/
def getProtectionStatusForSection (sec inA : ℚ) : ProtectionStatus :=
  let maxPes := getMaxInForSectionPessimistic sec
  let maxStd := getMaxInForSectionStandard sec
  match maxStd with
  | none => .ok
  | some ms =>
    if inA > ms then .danger
    else
      match maxPes with
      | some mp => if inA > mp then .info else .ok
      | none => .ok

/-! ## Electrical Sizing Module (src/unnamed/part_004, electricalSizing) -/

/-- Source: RHO_CU (part_004 line 5), resistivity constant in Ω·mm²/m. -/
def RHO_CU : ℚ := 0.023

/-- Source: DC_SECTIONS_MM2 (part_004 line 8). -/
def DC_SECTIONS_MM2 : List ℚ := [2.5, 6, 10, 16]

/-- Source: computeDcDrop (part_004 lines 12-22); returns (duV, duPct). -/
def computeDcDrop (lengthM currentA sectionMm2 baseV : ℚ) : ℚ × ℚ :=
  if lengthM ≤ 0 ∨ currentA ≤ 0 ∨ sectionMm2 ≤ 0 ∨ baseV ≤ 0 then (0, 0)
  else
    let duV := (2 * lengthM * currentA * RHO_CU) / sectionMm2
    (duV, duV / baseV * 100)

/-- Loop of pickAutoDcSectionOptionB (part_004 lines 36-40): remember each
visited section, stop at the first whose drop percent is at most 3. -/
def dcPickLoop (lengthM currentA baseV : ℚ) : List ℚ → ℚ → ℚ
  | [], autoS => autoS
  | s :: rest, _ =>
    if (computeDcDrop lengthM currentA s baseV).2 ≤ 3 then s
    else dcPickLoop lengthM currentA baseV rest s

/-- Source: pickAutoDcSectionOptionB (part_004 lines 29-42).
Walks the DC catalog from the 6 mm² floor and stops at the first section
whose voltage drop is at most 3 %. -/
def pickAutoDcSectionOptionB (lengthM currentA baseV : ℚ) : ℚ :=
  if lengthM ≤ 0 ∨ currentA ≤ 0 ∨ baseV ≤ 0 then 6
  else dcPickLoop lengthM currentA baseV (DC_SECTIONS_MM2.filter (fun s => 6 ≤ s)) 6

/-- Source: AC_SECTIONS_MM2 (part_004 line 53). -/
def AC_SECTIONS_MM2 : List ℚ := [2.5, 6, 10, 16, 25]

/-- Source: normalizeBreakerA (part_004 lines 76-79).
Rounds a theoretical minimum rating up to the phase-specific commercial
ladder; falls back to the largest ladder value when no ladder value is
large enough. -/
def normalizeBreakerA (minA : ℚ) (isThreePhase : Bool) : ℚ :=
  let available : List ℚ := if isThreePhase then [16, 20, 25, 32, 40] else [16, 20, 32, 40, 63]
  match available.find? (fun v => max 0 minA ≤ v) with
  | some v => v
  | none => if isThreePhase then 40 else 63

/-- The exact IEEE-754 double value of Math.sqrt(3). -/
def MATH_SQRT3 : ℚ := 3900231685776981 / 2251799813685248

/-- Source: computeAcDropPercent (part_004 lines 81-92), parameterised by
the value sqrt3 that the code obtains from Math.sqrt(3).  Note the
three-phase branch divides the current by the literal 1.732 but multiplies
the drop by sqrt3. -/
def computeAcDropPercentWith (sqrt3 powerVA distanceMeters sectionMm2 : ℚ)
    (isThreePhase : Bool) : ℚ :=
  if powerVA ≤ 0 ∨ distanceMeters ≤ 0 ∨ sectionMm2 ≤ 0 then 0
  else
    let voltage : ℚ := if isThreePhase then 400 else 230
    let current : ℚ := if isThreePhase then powerVA / (voltage * 1.732) else powerVA / voltage
    let dropV : ℚ :=
      if isThreePhase then (sqrt3 * distanceMeters * current * RHO_CU) / sectionMm2
      else (2 * distanceMeters * current * RHO_CU) / sectionMm2
    dropV / voltage * 100

/-- Source: computeAcDropPercent (part_004 lines 81-92), with Math.sqrt(3)
at its double value. -/
def computeAcDropPercent (powerVA distanceMeters sectionMm2 : ℚ) (isThreePhase : Bool) : ℚ :=
  computeAcDropPercentWith MATH_SQRT3 powerVA distanceMeters sectionMm2 isThreePhase

/-- Phase-2 loop of pickAutoAcSectionMm2 (part_004 lines 113-122): walk the
catalog, skip sections under the floor, remember the last visited section,
stop at the first one meeting cond. -/
def pickAcLoop (minAuto : ℚ) (cond : ℚ → Bool) : List ℚ → ℚ → ℚ
  | [], chosen => chosen
  | s :: rest, chosen =>
    if s < minAuto then pickAcLoop minAuto cond rest chosen
    else if cond s then s
    else pickAcLoop minAuto cond rest s

/-- Source: pickAutoAcSectionMm2 (part_004 lines 94-124), parameterised by
the Math.sqrt(3) value used by computeAcDropPercent. -/
def pickAutoAcSectionMm2With (sqrt3 : ℚ) (powerVA lengthM : ℚ) (isThreePhase : Bool)
    (breakerA : ℚ) (minAutoSectionMm2 : Option ℚ) : ℚ :=
  let minAuto := minAutoSectionMm2.getD 2.5
  match AC_SECTIONS_MM2.find? (fun s =>
      !(s < minAuto) &&
      (computeAcDropPercentWith sqrt3 powerVA lengthM s isThreePhase ≤ 1) &&
      (getProtectionStatusForSection s breakerA = .ok)) with
  | some s => s
  | none =>
    pickAcLoop minAuto (fun s =>
        (computeAcDropPercentWith sqrt3 powerVA lengthM s isThreePhase ≤ 1) &&
        !(getProtectionStatusForSection s breakerA = .danger))
      AC_SECTIONS_MM2 2.5

/-- Source: pickAutoAcSectionMm2 (part_004 lines 94-124) with Math.sqrt(3)
at its double value. -/
def pickAutoAcSectionMm2 (powerVA lengthM : ℚ) (isThreePhase : Bool)
    (breakerA : ℚ) (minAutoSectionMm2 : Option ℚ) : ℚ :=
  pickAutoAcSectionMm2With MATH_SQRT3 powerVA lengthM isThreePhase breakerA minAutoSectionMm2

/-! ## Spec-side voltage-drop formulas (for refinement comparison)

These mirror the spec's words, not the code. -/

/-- Claimed single-phase drop formula: ((2 × L × I × 0.023) / S / V) × 100
with I = P / 230 and V = 230, zero-guarded as the spec's edge-case policy
states. -/
def specAcDropPercentMono (powerVA lengthM sectionMm2 : ℚ) : ℚ :=
  if powerVA ≤ 0 ∨ lengthM ≤ 0 ∨ sectionMm2 ≤ 0 then 0
  else ((2 * lengthM * (powerVA / 230) * 0.023) / sectionMm2 / 230) * 100

/-- Claimed three-phase drop formula with an explicit value s standing for
√3: ((s × L × I × 0.023) / S / V) × 100 with I = P / (400 × s), V = 400. -/
def specAcDropPercentTriWith (s powerVA lengthM sectionMm2 : ℚ) : ℚ :=
  if powerVA ≤ 0 ∨ lengthM ≤ 0 ∨ sectionMm2 ≤ 0 then 0
  else ((s * lengthM * (powerVA / (400 * s)) * 0.023) / sectionMm2 / 400) * 100

/-- Claimed three-phase drop formula: the two occurrences of √3 cancel, so
the claimed value is the following rational expression (see
specAcDropPercentTriWith_eq). -/
def specAcDropPercentTri (powerVA lengthM sectionMm2 : ℚ) : ℚ :=
  if powerVA ≤ 0 ∨ lengthM ≤ 0 ∨ sectionMm2 ≤ 0 then 0
  else ((lengthM * (powerVA / 400) * 0.023) / sectionMm2 / 400) * 100

/-- For every nonzero choice of the value standing for √3 the claimed
three-phase formula denotes the same rational function. -/
theorem specAcDropPercentTriWith_eq (s powerVA lengthM sectionMm2 : ℚ) (hs : s ≠ 0) :
    specAcDropPercentTriWith s powerVA lengthM sectionMm2 =
      specAcDropPercentTri powerVA lengthM sectionMm2 := by
  unfold specAcDropPercentTriWith specAcDropPercentTri
  split_ifs with h
  · rfl
  · have hy : s * lengthM * (powerVA / (400 * s)) = lengthM * (powerVA / 400) := by
      field_simp
      ring
    rw [hy]

/-! ## Theorems for the claims on the standards and sizing modules -/

/-- C3: for every cable cross-section and protective-device rating, the
status is danger exactly when isProtectionTooHighForSection holds (rating
above the standard-profile maximum), info exactly when the rating exceeds
the pessimistic-profile maximum but not the standard one, and ok
otherwise. -/
theorem protectionStatus_policy (sec inA : ℚ) :
    (getProtectionStatusForSection sec inA = .danger ↔
      isProtectionTooHighForSection sec inA = true) ∧
    (getProtectionStatusForSection sec inA = .info ↔
      ∃ mp ms, getMaxInForSectionPessimistic sec = some mp ∧
        getMaxInForSectionStandard sec = some ms ∧ mp < inA ∧ ¬ ms < inA) ∧
    (getProtectionStatusForSection sec inA = .ok ↔
      (isProtectionTooHighForSection sec inA = false ∧
        ¬ ∃ mp ms, getMaxInForSectionPessimistic sec = some mp ∧
          getMaxInForSectionStandard sec = some ms ∧ mp < inA ∧ ¬ ms < inA)) := by
  unfold getProtectionStatusForSection isProtectionTooHighForSection
    getMaxInForSectionStandard getMaxInForSectionPessimistic
  split_ifs <;> (refine ⟨?_, ?_, ?_⟩) <;> (try simp) <;> split_ifs <;> simp_all

/-- C5 counterexample: at a theoretical minimum of 100 A in single phase,
normalizeBreakerA returns 63, which is not greater than or equal to the
input, so the function does not always round up to a ladder value at or
above the input. -/
theorem normalizeBreakerA_not_always_roundup :
    normalizeBreakerA 100 false = 63 ∧ (normalizeBreakerA 100 false : ℚ) < 100 := by
  constructor <;> norm_num [normalizeBreakerA, List.find?]

/-- Closed form of normalizeBreakerA as a chain of threshold tests. -/
theorem normalizeBreakerA_eq (minA : ℚ) (tri : Bool) :
    normalizeBreakerA minA tri =
      if tri then
        (if max 0 minA ≤ 16 then 16 else if max 0 minA ≤ 20 then 20
         else if max 0 minA ≤ 25 then 25 else if max 0 minA ≤ 32 then 32 else 40)
      else
        (if max 0 minA ≤ 16 then 16 else if max 0 minA ≤ 20 then 20
         else if max 0 minA ≤ 32 then 32 else if max 0 minA ≤ 40 then 40 else 63) := by
  unfold normalizeBreakerA
  cases tri <;> simp only [Bool.false_eq_true, ite_true, ite_false] <;>
      by_cases h1 : max 0 minA ≤ 16
  · rw [List.find?_cons_of_pos _ (by simpa using h1)]
    simp [h1]
  · rw [List.find?_cons_of_neg _ (by simpa using h1)]
    by_cases h2 : max 0 minA ≤ 20
    · rw [List.find?_cons_of_pos _ (by simpa using h2)]
      simp [h1, h2]
    · rw [List.find?_cons_of_neg _ (by simpa using h2)]
      by_cases h3 : max 0 minA ≤ 32
      · rw [List.find?_cons_of_pos _ (by simpa using h3)]
        simp [h1, h2, h3]
      · rw [List.find?_cons_of_neg _ (by simpa using h3)]
        by_cases h4 : max 0 minA ≤ 40
        · rw [List.find?_cons_of_pos _ (by simpa using h4)]
          simp [h1, h2, h3, h4]
        · rw [List.find?_cons_of_neg _ (by simpa using h4)]
          by_cases h5 : max 0 minA ≤ 63
          · rw [List.find?_cons_of_pos _ (by simpa using h5)]
            simp [h1, h2, h3, h4, h5]
          · rw [List.find?_cons_of_neg _ (by simpa using h5)]
            simp [h1, h2, h3, h4, h5]
  · rw [List.find?_cons_of_pos _ (by simpa using h1)]
    simp [h1]
  · rw [List.find?_cons_of_neg _ (by simpa using h1)]
    by_cases h2 : max 0 minA ≤ 20
    · rw [List.find?_cons_of_pos _ (by simpa using h2)]
      simp [h1, h2]
    · rw [List.find?_cons_of_neg _ (by simpa using h2)]
      by_cases h3 : max 0 minA ≤ 25
      · rw [List.find?_cons_of_pos _ (by simpa using h3)]
        simp [h1, h2, h3]
      · rw [List.find?_cons_of_neg _ (by simpa using h3)]
        by_cases h4 : max 0 minA ≤ 32
        · rw [List.find?_cons_of_pos _ (by simpa using h4)]
          simp [h1, h2, h3, h4]
        · rw [List.find?_cons_of_neg _ (by simpa using h4)]
          by_cases h5 : max 0 minA ≤ 40
          · rw [List.find?_cons_of_pos _ (by simpa using h5)]
            simp [h1, h2, h3, h4, h5]
          · rw [List.find?_cons_of_neg _ (by simpa using h5)]
            simp [h1, h2, h3, h4, h5]

/-- C5 amended: normalizeBreakerA returns the smallest value of the
phase-specific commercial ladder that is at least max(0, input), and clamps
to the largest ladder value when the input exceeds every ladder value. -/
theorem normalizeBreakerA_rounds_up (minA : ℚ) (tri : Bool) :
    (∀ v ∈ (if tri then ([16, 20, 25, 32, 40] : List ℚ) else [16, 20, 32, 40, 63]),
      max 0 minA ≤ v →
        normalizeBreakerA minA tri ∈
            (if tri then ([16, 20, 25, 32, 40] : List ℚ) else [16, 20, 32, 40, 63]) ∧
          max 0 minA ≤ normalizeBreakerA minA tri ∧ normalizeBreakerA minA tri ≤ v) ∧
    ((∀ v ∈ (if tri then ([16, 20, 25, 32, 40] : List ℚ) else [16, 20, 32, 40, 63]),
        v < max 0 minA) →
      normalizeBreakerA minA tri = if tri then 40 else 63) := by
  rw [normalizeBreakerA_eq]
  cases tri <;> simp only [Bool.false_eq_true, ite_true, ite_false] <;>
    constructor
  · intro v hv hle
    fin_cases hv <;> split_ifs <;> refine ⟨by norm_num, ?_, ?_⟩ <;> linarith
  · intro hall
    have h63 := hall 63 (by norm_num)
    split_ifs <;> linarith
  · intro v hv hle
    fin_cases hv <;> split_ifs <;> refine ⟨by norm_num, ?_, ?_⟩ <;> linarith
  · intro hall
    have h40 := hall 40 (by norm_num)
    split_ifs <;> linarith

/-- C5 witness: concrete instances of the amended rounding behaviour. -/
theorem normalizeBreakerA_rounds_up_witness :
    (normalizeBreakerA 30 false ∈ ([16, 20, 32, 40, 63] : List ℚ) ∧
      max 0 (30 : ℚ) ≤ normalizeBreakerA 30 false ∧ normalizeBreakerA 30 false ≤ 32) ∧
    normalizeBreakerA 100 false = 63 := by
  constructor
  · have h := (normalizeBreakerA_rounds_up 30 false).1 32 (by simp) (by norm_num)
    simpa using h
  · have h := (normalizeBreakerA_rounds_up 100 false).2 (by intro v hv; fin_cases hv <;> norm_num)
    simpa using h

/-- Helper: the DC pick loop returns the first catalog entry whose drop is
at most 3 %, whenever one exists. -/
theorem dcPickLoop_eq_find (lengthM currentA baseV : ℚ) (l : List ℚ) (s : ℚ) :
    l.find? (fun t => (computeDcDrop lengthM currentA t baseV).2 ≤ 3) = some s →
    ∀ c, dcPickLoop lengthM currentA baseV l c = s := by
  induction l with
  | nil => intro h; simp at h
  | cons a t ih =>
    intro h c
    by_cases hp : (computeDcDrop lengthM currentA a baseV).2 ≤ 3
    · rw [List.find?_cons_of_pos _ (by simpa using hp)] at h
      simp only [Option.some.injEq] at h
      cases h
      simp [dcPickLoop, hp]
    · rw [List.find?_cons_of_neg _ (by simpa using hp)] at h
      simp [dcPickLoop, hp, ih h]

/-- Helper: the DC pick loop returns its seed or an element of the list. -/
theorem dcPickLoop_mem (lengthM currentA baseV : ℚ) (l : List ℚ) (c : ℚ) :
    dcPickLoop lengthM currentA baseV l c ∈ c :: l := by
  induction l generalizing c with
  | nil => simp [dcPickLoop]
  | cons a t ih =>
    by_cases hp : (computeDcDrop lengthM currentA a baseV).2 ≤ 3
    · simp [dcPickLoop, hp]
    · have := ih a
      simp only [dcPickLoop, hp, ite_false, if_neg hp]
      rcases List.mem_cons.mp this with h | h
      · simp [h]
      · simp [List.mem_cons, Or.inr (Or.inr h)]

/-- C7: the DC auto section picker only returns 6, 10 or 16 mm² (never
below the 6 mm² floor); it returns the first catalog section from the
6 mm² floor whose drop is at most 3 %; and on the spec's scenario of 12 A
over 40 m at 600 V it returns exactly 6. -/
theorem pickAutoDcSection_floor (lengthM currentA baseV : ℚ) :
    pickAutoDcSectionOptionB lengthM currentA baseV ∈ ([6, 10, 16] : List ℚ) ∧
    (∀ s, (DC_SECTIONS_MM2.filter (fun t => 6 ≤ t)).find?
        (fun t => (computeDcDrop lengthM currentA t baseV).2 ≤ 3) = some s →
      pickAutoDcSectionOptionB lengthM currentA baseV = s) ∧
    pickAutoDcSectionOptionB 40 12 600 = 6 := by
  have hfil : DC_SECTIONS_MM2.filter (fun s => 6 ≤ s) = [6, 10, 16] := by
    norm_num [DC_SECTIONS_MM2, List.filter]
  have hscenario : pickAutoDcSectionOptionB 40 12 600 = 6 := by
    have h6 : (computeDcDrop 40 12 6 600).2 ≤ 3 := by
      norm_num [computeDcDrop, RHO_CU]
    unfold pickAutoDcSectionOptionB
    rw [hfil, if_neg (by norm_num)]
    simp [dcPickLoop, h6]
  refine ⟨?_, ?_, hscenario⟩
  · unfold pickAutoDcSectionOptionB
    rw [hfil]
    split_ifs
    · norm_num
    · have hmem := dcPickLoop_mem lengthM currentA baseV [6, 10, 16] 6
      simpa using hmem
  · intro s hs
    rw [hfil] at hs
    unfold pickAutoDcSectionOptionB
    rw [hfil]
    split_ifs with h
    · have hz : (computeDcDrop lengthM currentA 6 baseV).2 ≤ 3 := by
        unfold computeDcDrop
        split_ifs with h6
        · norm_num
        · exact absurd (by tauto) h6
      rw [List.find?_cons_of_pos _ (by simpa using hz)] at hs
      exact Option.some_inj.mp hs
    · exact dcPickLoop_eq_find lengthM currentA baseV _ s hs 6

/-- C7 witness: the scenario input instantiates the first-qualifying
characterisation at section 6. -/
theorem pickAutoDcSection_floor_witness :
    (DC_SECTIONS_MM2.filter (fun t => 6 ≤ t)).find?
        (fun t => (computeDcDrop 40 12 t 600).2 ≤ 3) = some 6 ∧
    pickAutoDcSectionOptionB 40 12 600 = 6 := by
  have hfind : (DC_SECTIONS_MM2.filter (fun t => 6 ≤ t)).find?
      (fun t => (computeDcDrop 40 12 t 600).2 ≤ 3) = some 6 := by
    norm_num [DC_SECTIONS_MM2, List.filter, List.find?, computeDcDrop, RHO_CU]
  exact ⟨hfind, (pickAutoDcSection_floor 40 12 600).2.1 6 hfind⟩

/-- C6 amended: the single-phase AC drop and the DC drop match the claimed
formulas exactly (including the zero-guards), but the three-phase AC drop
equals the claimed formula scaled by sqrt3 / 1.732, because the code
computes the current with the literal 1.732 while scaling the drop by
Math.sqrt(3). -/
theorem acDropPercent_formula (sqrt3 powerVA lengthM sectionMm2 currentA baseV : ℚ) :
    computeAcDropPercentWith sqrt3 powerVA lengthM sectionMm2 false =
      specAcDropPercentMono powerVA lengthM sectionMm2 ∧
    computeAcDropPercentWith sqrt3 powerVA lengthM sectionMm2 true =
      sqrt3 / 1.732 * specAcDropPercentTri powerVA lengthM sectionMm2 ∧
    (computeDcDrop lengthM currentA sectionMm2 baseV).2 =
      (if lengthM ≤ 0 ∨ currentA ≤ 0 ∨ sectionMm2 ≤ 0 ∨ baseV ≤ 0 then 0
       else 2 * lengthM * currentA * 0.023 / sectionMm2 / baseV * 100) ∧
    ((powerVA ≤ 0 ∨ lengthM ≤ 0 ∨ sectionMm2 ≤ 0) →
      ∀ b : Bool, computeAcDropPercentWith sqrt3 powerVA lengthM sectionMm2 b = 0) := by
  refine ⟨?_, ?_, ?_, ?_⟩
  · unfold computeAcDropPercentWith specAcDropPercentMono RHO_CU
    simp only [Bool.false_eq_true, if_false, ite_false]
  · unfold computeAcDropPercentWith specAcDropPercentTri RHO_CU
    simp only [if_true, ite_true]
    split_ifs with h
    · norm_num
    · push_neg at h
      obtain ⟨hp, hl, hs⟩ := h
      have hs0 : sectionMm2 ≠ 0 := ne_of_gt hs
      field_simp
      ring
  · unfold computeDcDrop RHO_CU
    split_ifs <;> norm_num
  · intro h b
    unfold computeAcDropPercentWith
    split_ifs <;> simp_all

/-- C6 witness: a concrete zero-guard instance of the formula theorem. -/
theorem acDropPercent_formula_witness :
    ((-1 : ℚ) ≤ 0 ∨ (5 : ℚ) ≤ 0 ∨ (6 : ℚ) ≤ 0) ∧
      computeAcDropPercentWith MATH_SQRT3 (-1) 5 6 true = 0 :=
  ⟨Or.inl (by norm_num),
    (acDropPercent_formula MATH_SQRT3 (-1) 5 6 1 1).2.2.2 (Or.inl (by norm_num)) true⟩

/-- C6 counterexample: at power 400 VA over 1 m on 1 mm² in three-phase,
the code's drop percent differs from the claimed formula
((√3 × L × I × 0.023) / S / V) × 100 with I = P / (400 × √3), whose value
is independent of the value chosen for √3 (specAcDropPercentTriWith_eq). -/
theorem computeAcDropPercent_tri_ne_claimed :
    computeAcDropPercent 400 1 1 true ≠ specAcDropPercentTri 400 1 1 ∧
    computeAcDropPercent 400 1 1 true ≠
      specAcDropPercentTriWith MATH_SQRT3 400 1 1 := by
  constructor <;>
    norm_num [computeAcDropPercent, computeAcDropPercentWith, specAcDropPercentTri,
      specAcDropPercentTriWith, MATH_SQRT3, RHO_CU]

/-! ## Monotonicity of the AC auto section picker (C4) -/

/-- Helper: if q implies p on a list, a q-hit guarantees a p-hit. -/
theorem find?_subset_isSome {p q : ℚ → Bool} (l : List ℚ)
    (hpq : ∀ x ∈ l, q x = true → p x = true) (h : (l.find? q).isSome) :
    (l.find? p).isSome := by
  induction l with
  | nil => simp at h
  | cons a t ih =>
    by_cases hpa : p a = true
    · simp [List.find?_cons_of_pos _ hpa]
    · have hqa : ¬ q a = true := fun hq => hpa (hpq a (by simp) hq)
      rw [List.find?_cons_of_neg _ hqa] at h
      rw [List.find?_cons_of_neg _ hpa]
      exact ih (fun x hx => hpq x (List.mem_cons_of_mem a hx)) h

/-- Helper: on a sorted list, the first p-hit is at most the first q-hit
when q implies p. -/
theorem find?_subset_le {p q : ℚ → Bool} {l : List ℚ} (hsort : l.Pairwise (· ≤ ·))
    (hpq : ∀ x ∈ l, q x = true → p x = true) {a b : ℚ}
    (hp : l.find? p = some a) (hq : l.find? q = some b) : a ≤ b := by
  induction l with
  | nil => simp at hp
  | cons y t ih =>
    by_cases hpy : p y = true
    · rw [List.find?_cons_of_pos _ hpy] at hp
      have ha : y = a := by simpa using hp
      subst ha
      rcases List.mem_cons.mp (List.mem_of_find?_eq_some hq) with hb | hb
      · exact le_of_eq hb.symm
      · exact (List.pairwise_cons.mp hsort).1 b hb
    · have hqy : ¬ q y = true := fun h => hpy (hpq y (by simp) h)
      rw [List.find?_cons_of_neg _ hpy] at hp
      rw [List.find?_cons_of_neg _ hqy] at hq
      exact ih (List.pairwise_cons.mp hsort).2
        (fun x hx => hpq x (List.mem_cons_of_mem y hx)) hp hq

/-- Helper: when the floored condition has a first hit, the phase-2 loop
returns it whatever its seed. -/
theorem pickAcLoop_eq_of_find? {minAuto : ℚ} {cond : ℚ → Bool} {l : List ℚ} {b : ℚ}
    (h : l.find? (fun s => !(s < minAuto) && cond s) = some b) (c : ℚ) :
    pickAcLoop minAuto cond l c = b := by
  induction l generalizing c with
  | nil => simp at h
  | cons y t ih =>
    simp only [List.find?_cons] at h
    by_cases hlt : y < minAuto
    · have hy : (!decide (y < minAuto) && cond y) = false := by simp [hlt]
      rw [hy] at h
      simp only [pickAcLoop, if_pos hlt]
      exact ih h c
    · by_cases hcy : cond y = true
      · have hy : (!decide (y < minAuto) && cond y) = true := by simp [hlt, hcy]
        rw [hy] at h
        simp only [pickAcLoop, if_neg hlt, if_pos hcy]
        exact Option.some_inj.mp h
      · have hy : (!decide (y < minAuto) && cond y) = false := by
          simp only [Bool.and_eq_false_iff]
          right
          exact Bool.not_eq_true _ ▸ hcy
        rw [hy] at h
        simp only [pickAcLoop, if_neg hlt, if_neg hcy]
        exact ih h y

/-- Helper: when the floored condition never hits, the phase-2 loop keeps
the last section at or above the floor (or its seed). -/
theorem pickAcLoop_eq_foldl {minAuto : ℚ} {cond : ℚ → Bool} {l : List ℚ}
    (h : l.find? (fun s => !(s < minAuto) && cond s) = none) (c : ℚ) :
    pickAcLoop minAuto cond l c =
      l.foldl (fun acc s => if s < minAuto then acc else s) c := by
  induction l generalizing c with
  | nil => simp [pickAcLoop]
  | cons y t ih =>
    rw [List.find?_eq_none] at h
    by_cases hlt : y < minAuto
    · simp only [pickAcLoop, if_pos hlt, List.foldl_cons]
      exact ih (by rw [List.find?_eq_none]; exact fun x hx => h x (List.mem_cons_of_mem y hx)) c
    · have hcy : ¬ cond y = true := by
        intro hcy
        exact h y (by simp) (by simp [hlt, hcy])
      simp only [pickAcLoop, if_neg hlt, if_neg hcy, List.foldl_cons]
      exact ih (by rw [List.find?_eq_none]; exact fun x hx => h x (List.mem_cons_of_mem y hx)) y

/-- Helper for le_foldl_keep: from a seed below every list element the
kept-section fold can only go up. -/
theorem le_foldl_keep_aux {minAuto : ℚ} {l : List ℚ} (hsort : l.Pairwise (· ≤ ·))
    {a : ℚ} (h : ∀ z ∈ l, a ≤ z) :
    a ≤ l.foldl (fun acc s => if s < minAuto then acc else s) a := by
  induction l generalizing a with
  | nil => simp
  | cons z t ih =>
    simp only [List.foldl_cons]
    by_cases hlt : z < minAuto
    · rw [if_pos hlt]
      exact ih (List.pairwise_cons.mp hsort).2 (fun w hw => h w (List.mem_cons_of_mem z hw))
    · rw [if_neg hlt]
      exact le_trans (h z (by simp))
        (ih (List.pairwise_cons.mp hsort).2 (List.pairwise_cons.mp hsort).1)

/-- Helper: any list element at or above the floor bounds the kept-section
fold from below. -/
theorem le_foldl_keep {minAuto : ℚ} {l : List ℚ} (hsort : l.Pairwise (· ≤ ·)) {x : ℚ}
    (hx : x ∈ l) (hge : ¬ x < minAuto) (c : ℚ) :
    x ≤ l.foldl (fun acc s => if s < minAuto then acc else s) c := by
  induction l generalizing c with
  | nil => simp at hx
  | cons y t ih =>
    simp only [List.foldl_cons]
    rcases List.mem_cons.mp hx with hxy | hxt
    · subst hxy
      rw [if_neg hge]
      exact le_foldl_keep_aux (List.pairwise_cons.mp hsort).2 (List.pairwise_cons.mp hsort).1
    · exact ih (List.pairwise_cons.mp hsort).2 hxt _

/-- Helper: off the zero-guard, the AC drop percent is a positive multiple
of L × P divided by the section. -/
theorem acDropCoeff (sqrt3 P L S : ℚ) (h : ¬(P ≤ 0 ∨ L ≤ 0 ∨ S ≤ 0)) :
    computeAcDropPercentWith sqrt3 P L S true =
      sqrt3 * (23 / 1000) * 100 / (400 * (400 * 1.732)) * (L * P) / S ∧
    computeAcDropPercentWith sqrt3 P L S false =
      2 * (23 / 1000) * 100 / (230 * 230) * (L * P) / S := by
  unfold computeAcDropPercentWith RHO_CU
  rw [if_neg h, if_neg h]
  constructor
  · simp only [ite_true, if_true]
    ring
  · simp only [Bool.false_eq_true, ite_false, if_false]
    ring

/-- The coefficient in acDropCoeff is nonnegative. -/
theorem acDropCoeff_nonneg (sqrt3 : ℚ) (hs3 : 0 ≤ sqrt3) (tri : Bool) :
    0 ≤ (if tri then sqrt3 * (23 / 1000) * 100 / (400 * (400 * 1.732))
         else 2 * (23 / 1000) * 100 / (230 * 230) : ℚ) := by
  cases tri
  · norm_num
  · simp only [ite_true, if_true]
    have h1 : (0:ℚ) ≤ 23 / 1000 := by norm_num
    have := mul_nonneg (mul_nonneg (mul_nonneg hs3 h1) (by norm_num : (0:ℚ) ≤ 100))
      (by norm_num : (0:ℚ) ≤ (400 * (400 * 1.732) : ℚ)⁻¹)
    calc (0:ℚ) ≤ sqrt3 * (23 / 1000) * 100 * (400 * (400 * 1.732))⁻¹ := this
    _ = sqrt3 * (23 / 1000) * 100 / (400 * (400 * 1.732)) := by
        ring

/-- Helper: the AC drop percent is nonnegative for a nonnegative √3
stand-in and a positive section. -/
theorem acDropPercentWith_nonneg (sqrt3 P L S : ℚ) (hs3 : 0 ≤ sqrt3) (hS : 0 < S)
    (tri : Bool) : 0 ≤ computeAcDropPercentWith sqrt3 P L S tri := by
  by_cases h : P ≤ 0 ∨ L ≤ 0 ∨ S ≤ 0
  · unfold computeAcDropPercentWith
    rw [if_pos h]
  · push_neg at h
    obtain ⟨hp, hl, _⟩ := h
    have hcoeff := acDropCoeff_nonneg sqrt3 hs3 tri
    have hnum : (0:ℚ) ≤ L * P := mul_nonneg hl.le hp.le
    cases tri
    · rw [(acDropCoeff sqrt3 P L S (by push_neg; exact ⟨hp, hl, hS⟩)).2]
      simp only [Bool.false_eq_true, ite_false, if_false] at hcoeff
      exact div_nonneg (mul_nonneg hcoeff hnum) hS.le
    · rw [(acDropCoeff sqrt3 P L S (by push_neg; exact ⟨hp, hl, hS⟩)).1]
      simp only [ite_true, if_true] at hcoeff
      exact div_nonneg (mul_nonneg hcoeff hnum) hS.le

/-- Helper: the AC drop percent is monotone in power and length. -/
theorem acDropPercentWith_mono (sqrt3 P1 P2 L1 L2 S : ℚ) (hs3 : 0 ≤ sqrt3) (hS : 0 < S)
    (hP : P1 ≤ P2) (hL : L1 ≤ L2) (tri : Bool) :
    computeAcDropPercentWith sqrt3 P1 L1 S tri ≤ computeAcDropPercentWith sqrt3 P2 L2 S tri := by
  by_cases h1 : P1 ≤ 0 ∨ L1 ≤ 0 ∨ S ≤ 0
  · calc computeAcDropPercentWith sqrt3 P1 L1 S tri = 0 := by
          unfold computeAcDropPercentWith; rw [if_pos h1]
      _ ≤ computeAcDropPercentWith sqrt3 P2 L2 S tri :=
          acDropPercentWith_nonneg sqrt3 P2 L2 S hs3 hS tri
  · push_neg at h1
    obtain ⟨hp1, hl1, _⟩ := h1
    have hg1 : ¬ (P1 ≤ 0 ∨ L1 ≤ 0 ∨ S ≤ 0) := by push_neg; exact ⟨hp1, hl1, hS⟩
    have hg2 : ¬ (P2 ≤ 0 ∨ L2 ≤ 0 ∨ S ≤ 0) := by
      push_neg
      exact ⟨lt_of_lt_of_le hp1 hP, lt_of_lt_of_le hl1 hL, hS⟩
    have hnum : L1 * P1 ≤ L2 * P2 :=
      mul_le_mul hL hP hp1.le (le_trans hl1.le hL)
    have hcoeff := acDropCoeff_nonneg sqrt3 hs3 tri
    cases tri
    · rw [(acDropCoeff sqrt3 P1 L1 S hg1).2, (acDropCoeff sqrt3 P2 L2 S hg2).2]
      rw [div_le_div_iff_of_pos_right hS]
      exact mul_le_mul_of_nonneg_left hnum (by norm_num)
    · rw [(acDropCoeff sqrt3 P1 L1 S hg1).1, (acDropCoeff sqrt3 P2 L2 S hg2).1]
      rw [div_le_div_iff_of_pos_right hS]
      simp only [ite_true, if_true] at hcoeff
      exact mul_le_mul_of_nonneg_left hnum hcoeff

/-- Helper: the AC drop percent is antitone in the section. -/
theorem acDropPercentWith_anti (sqrt3 P L S1 S2 : ℚ) (hs3 : 0 ≤ sqrt3) (hS1 : 0 < S1)
    (hS : S1 ≤ S2) (tri : Bool) :
    computeAcDropPercentWith sqrt3 P L S2 tri ≤ computeAcDropPercentWith sqrt3 P L S1 tri := by
  have hS2 : 0 < S2 := lt_of_lt_of_le hS1 hS
  by_cases h : P ≤ 0 ∨ L ≤ 0
  · have e1 : computeAcDropPercentWith sqrt3 P L S1 tri = 0 := by
      unfold computeAcDropPercentWith; rw [if_pos (by tauto)]
    have e2 : computeAcDropPercentWith sqrt3 P L S2 tri = 0 := by
      unfold computeAcDropPercentWith; rw [if_pos (by tauto)]
    rw [e1, e2]
  · push_neg at h
    obtain ⟨hp, hl⟩ := h
    have hg1 : ¬ (P ≤ 0 ∨ L ≤ 0 ∨ S1 ≤ 0) := by push_neg; exact ⟨hp, hl, hS1⟩
    have hg2 : ¬ (P ≤ 0 ∨ L ≤ 0 ∨ S2 ≤ 0) := by push_neg; exact ⟨hp, hl, hS2⟩
    have hnum : (0:ℚ) ≤ L * P := mul_nonneg hl.le hp.le
    have hcoeff := acDropCoeff_nonneg sqrt3 hs3 tri
    cases tri
    · rw [(acDropCoeff sqrt3 P L S1 hg1).2, (acDropCoeff sqrt3 P L S2 hg2).2]
      exact div_le_div_of_nonneg_left (mul_nonneg (by norm_num) hnum) hS1 hS
    · rw [(acDropCoeff sqrt3 P L S1 hg1).1, (acDropCoeff sqrt3 P L S2 hg2).1]
      simp only [ite_true, if_true] at hcoeff
      exact div_le_div_of_nonneg_left (mul_nonneg hcoeff hnum) hS1 hS

/-- Two-phase picker shape shared by both inputs of the monotonicity
argument: phase-1 searches for drop ≤ 1 plus okB, phase-2 falls back to
drop ≤ 1 plus ndB through pickAcLoop. -/
def pickAux (minAuto : ℚ) (okB ndB : ℚ → Bool) (d : ℚ → ℚ) (l : List ℚ) (init : ℚ) : ℚ :=
  match l.find? (fun s => !(s < minAuto) && (d s ≤ 1) && okB s) with
  | some s => s
  | none => pickAcLoop minAuto (fun s => (d s ≤ 1) && ndB s) l init

/-- pickAutoAcSectionMm2With is an instance of the pickAux shape. -/
theorem pickWith_eq_pickAux (sqrt3 powerVA lengthM : ℚ) (tri : Bool)
    (breakerA : ℚ) (mopt : Option ℚ) :
    pickAutoAcSectionMm2With sqrt3 powerVA lengthM tri breakerA mopt =
      pickAux (mopt.getD 2.5)
        (fun s => getProtectionStatusForSection s breakerA = ProtectionStatus.ok)
        (fun s => !(getProtectionStatusForSection s breakerA = ProtectionStatus.danger))
        (fun s => computeAcDropPercentWith sqrt3 powerVA lengthM s tri)
        AC_SECTIONS_MM2 2.5 :=
  rfl

/-- Core monotonicity of the two-phase picker: a pointwise larger and
section-antitone drop function can only move the picked section up. -/
theorem pickAux_mono (minAuto : ℚ) (okB ndB : ℚ → Bool) (d1 d2 : ℚ → ℚ)
    (l : List ℚ) (hsort : l.Pairwise (· ≤ ·))
    (hd : ∀ x ∈ l, d1 x ≤ d2 x)
    (hanti2 : ∀ x y, x ∈ l → y ∈ l → x ≤ y → d2 y ≤ d2 x)
    (init : ℚ) :
    pickAux minAuto okB ndB d1 l init ≤ pickAux minAuto okB ndB d2 l init := by
  have hsubOk : ∀ x ∈ l,
      (!(x < minAuto) && (d2 x ≤ 1) && okB x) = true →
      (!(x < minAuto) && (d1 x ≤ 1) && okB x) = true := by
    intro x hx hpx
    simp only [Bool.and_eq_true, Bool.not_eq_true', decide_eq_true_eq, decide_eq_false_iff_not]
      at hpx ⊢
    exact ⟨⟨hpx.1.1, le_trans (hd x hx) hpx.1.2⟩, hpx.2⟩
  have hsubNd : ∀ x ∈ l,
      (!(x < minAuto) && ((d2 x ≤ 1) && ndB x)) = true →
      (!(x < minAuto) && ((d1 x ≤ 1) && ndB x)) = true := by
    intro x hx hpx
    simp only [Bool.and_eq_true, Bool.not_eq_true', decide_eq_true_eq, decide_eq_false_iff_not]
      at hpx ⊢
    exact ⟨hpx.1, le_trans (hd x hx) hpx.2.1, hpx.2.2⟩
  cases h2 : l.find? (fun s => !(s < minAuto) && (d2 s ≤ 1) && okB s) with
  | some a2 =>
    have h1some : (l.find? (fun s => !(s < minAuto) && (d1 s ≤ 1) && okB s)).isSome :=
      find?_subset_isSome l hsubOk (by rw [h2]; rfl)
    obtain ⟨a1, h1⟩ := Option.isSome_iff_exists.mp h1some
    unfold pickAux
    rw [h1, h2]
    exact find?_subset_le hsort hsubOk h1 h2
  | none =>
    cases hnd2 : l.find? (fun s => !(s < minAuto) && ((d2 s ≤ 1) && ndB s)) with
    | some b2 =>
      have hres2 : pickAux minAuto okB ndB d2 l init = b2 := by
        unfold pickAux
        rw [h2]
        exact pickAcLoop_eq_of_find? hnd2 init
      have hb2mem : b2 ∈ l := List.mem_of_find?_eq_some hnd2
      have hb2pred := List.find?_some hnd2
      simp only [Bool.and_eq_true, Bool.not_eq_true', decide_eq_true_eq,
        decide_eq_false_iff_not] at hb2pred
      rw [hres2]
      cases h1 : l.find? (fun s => !(s < minAuto) && (d1 s ≤ 1) && okB s) with
      | some a1 =>
        have hres1 : pickAux minAuto okB ndB d1 l init = a1 := by
          unfold pickAux
          rw [h1]
        rw [hres1]
        by_contra hab
        push_neg at hab
        have ha1mem : a1 ∈ l := List.mem_of_find?_eq_some h1
        have ha1pred := List.find?_some h1
        simp only [Bool.and_eq_true, Bool.not_eq_true', decide_eq_true_eq,
          decide_eq_false_iff_not] at ha1pred
        have hd2a1 : d2 a1 ≤ 1 :=
          le_trans (hanti2 b2 a1 hb2mem ha1mem (le_of_lt hab)) hb2pred.2.1
        have hfalse := List.find?_eq_none.mp h2 a1 ha1mem
        apply hfalse
        simp only [Bool.and_eq_true, Bool.not_eq_true', decide_eq_true_eq,
          decide_eq_false_iff_not]
        exact ⟨⟨ha1pred.1.1, hd2a1⟩, ha1pred.2⟩
      | none =>
        cases hnd1 : l.find? (fun s => !(s < minAuto) && ((d1 s ≤ 1) && ndB s)) with
        | some b1 =>
          have hres1 : pickAux minAuto okB ndB d1 l init = b1 := by
            unfold pickAux
            rw [h1]
            exact pickAcLoop_eq_of_find? hnd1 init
          rw [hres1]
          exact find?_subset_le hsort hsubNd hnd1 hnd2
        | none =>
          have := find?_subset_isSome l hsubNd (by rw [hnd2]; rfl)
          rw [hnd1] at this
          simp at this
    | none =>
      have hres2 : pickAux minAuto okB ndB d2 l init =
          l.foldl (fun acc s => if s < minAuto then acc else s) init := by
        unfold pickAux
        rw [h2]
        exact pickAcLoop_eq_foldl hnd2 init
      rw [hres2]
      cases h1 : l.find? (fun s => !(s < minAuto) && (d1 s ≤ 1) && okB s) with
      | some a1 =>
        have hres1 : pickAux minAuto okB ndB d1 l init = a1 := by
          unfold pickAux
          rw [h1]
        rw [hres1]
        have ha1pred := List.find?_some h1
        simp only [Bool.and_eq_true, Bool.not_eq_true', decide_eq_true_eq,
          decide_eq_false_iff_not] at ha1pred
        exact le_foldl_keep hsort (List.mem_of_find?_eq_some h1)
          (by simpa using ha1pred.1.1) init
      | none =>
        cases hnd1 : l.find? (fun s => !(s < minAuto) && ((d1 s ≤ 1) && ndB s)) with
        | some b1 =>
          have hres1 : pickAux minAuto okB ndB d1 l init = b1 := by
            unfold pickAux
            rw [h1]
            exact pickAcLoop_eq_of_find? hnd1 init
          rw [hres1]
          have hb1pred := List.find?_some hnd1
          simp only [Bool.and_eq_true, Bool.not_eq_true', decide_eq_true_eq,
            decide_eq_false_iff_not] at hb1pred
          exact le_foldl_keep hsort (List.mem_of_find?_eq_some hnd1)
            (by simpa using hb1pred.1) init
        | none =>
          have hres1 : pickAux minAuto okB ndB d1 l init =
              l.foldl (fun acc s => if s < minAuto then acc else s) init := by
            unfold pickAux
            rw [h1]
            exact pickAcLoop_eq_foldl hnd1 init
          rw [hres1]

/-- C4: the auto-picked AC section is monotone: for a fixed phase mode,
breaker rating and section floor, increasing the power basis or the cable
length never decreases the picked section. -/
theorem pickAutoAcSectionMm2_monotone (tri : Bool) (breakerA : ℚ) (mopt : Option ℚ)
    (P1 P2 L1 L2 : ℚ) (hP : P1 ≤ P2) (hL : L1 ≤ L2) :
    pickAutoAcSectionMm2 P1 L1 tri breakerA mopt ≤
      pickAutoAcSectionMm2 P2 L2 tri breakerA mopt := by
  have hs3 : (0:ℚ) ≤ MATH_SQRT3 := by norm_num [MATH_SQRT3]
  have hsort : AC_SECTIONS_MM2.Pairwise (· ≤ ·) := by
    norm_num [AC_SECTIONS_MM2, List.pairwise_cons]
  have hpos : ∀ x ∈ AC_SECTIONS_MM2, (0:ℚ) < x := by
    intro x hx
    fin_cases hx <;> norm_num
  unfold pickAutoAcSectionMm2
  rw [pickWith_eq_pickAux, pickWith_eq_pickAux]
  exact pickAux_mono (mopt.getD 2.5) _ _ _ _ AC_SECTIONS_MM2 hsort
    (fun x hx => acDropPercentWith_mono MATH_SQRT3 P1 P2 L1 L2 x hs3 (hpos x hx) hP hL tri)
    (fun x y hx hy hxy =>
      acDropPercentWith_anti MATH_SQRT3 P2 L2 x y hs3 (hpos x hx) hxy tri)
    2.5

/-- C4 witness: a concrete monotone pair in single phase at breaker 32 A. -/
theorem pickAutoAcSectionMm2_monotone_witness :
    (1000 : ℚ) ≤ 2000 ∧ (10 : ℚ) ≤ 20 ∧
    pickAutoAcSectionMm2 1000 10 false 32 none ≤ pickAutoAcSectionMm2 2000 20 false 32 none :=
  ⟨by norm_num, by norm_num,
    pickAutoAcSectionMm2_monotone false 32 none 1000 2000 10 20 (by norm_num) (by norm_num)⟩

/-! ## Compatibility Analyzer data model (src/types, src/unnamed/part_001)

Only the fields read by the functions under verification are modelled;
display-only fields (dimensions, prices, image and document links) are
omitted. -/

/-- Source: PanelElectricalSpecs (part_001 lines 112-119). -/
structure PanelElectricalSpecs where
  voc : ℚ
  isc : ℚ
  vmp : ℚ
  imp : ℚ
  tempCoeffVoc : Option ℚ
  tempCoeffPmax : Option ℚ
deriving Repr, DecidableEq

/-- Source: Panel (part_001 lines 121-133); display-only fields omitted. -/
structure Panel where
  name : String
  power : ℚ
  electrical : Option PanelElectricalSpecs
deriving Repr, DecidableEq

/-- Source: InverterElectricalSpecs (part_001 lines 163-177). -/
structure InverterElectricalSpecs where
  maxInputVoltage : ℚ
  minMpptVoltage : ℚ
  maxMpptVoltage : ℚ
  maxInputCurrent : ℚ
  maxAcPower : ℚ
  maxAcCurrent : Option ℚ
  nominalAcCurrent : Option ℚ
  maxStrings : Option ℕ
  mpptCount : Option ℕ
  maxDcPower : Option ℚ
  isMicro : Option Bool
deriving Repr, DecidableEq

/-- Source: Component (part_001 lines 179-193): only id, power and the
inverter variant of the electrical union are read by
checkElectricalCompatibility. -/
structure Component where
  id : String
  power : Option ℚ
  electrical : Option InverterElectricalSpecs
deriving Repr, DecidableEq

/-- Source: ConfiguredString (part_001 lines 43-48). -/
structure ConfiguredString where
  id : String
  fieldId : String
  panelCount : ℚ
  mpptIndex : ℕ
deriving Repr, DecidableEq

/-- Source: DcCablingRun (part_001 lines 244-252). -/
structure DcCablingRun where
  mpptIndex : ℕ
  lengthM : ℚ
  sectionMm2 : Option ℚ
  parallelStrings : Option ℚ
deriving Repr, DecidableEq

/-- Source: PanelConfig (part_001 lines 104-110); orientation omitted. -/
structure PanelConfig where
  model : Panel
  rows : ℚ
  columns : ℚ
  rowConfiguration : Option (List ℚ)
deriving Repr, DecidableEq

/-- Source: RoofField (part_001 lines 1-7); roof geometry omitted. -/
structure RoofField where
  id : String
  name : String
  panels : PanelConfig
deriving Repr, DecidableEq

/-- Climate record consumed by checkElectricalCompatibility. -/
structure Climate where
  tempMin : ℚ
  tempMaxAmb : ℚ
deriving Repr, DecidableEq

/-- The 'Mono' | 'Tri' phase tag. -/
inductive PhaseMode where
  | mono
  | tri
deriving Repr, DecidableEq

/-- Source: InverterBrand enum (part_001 lines 80-86). -/
inductive InverterBrand where
  | noneBrand
  | enphase
  | apsystems
  | foxess
  | custom
deriving Repr, DecidableEq

/-- RCD (DDR) type selected by the analyzer. -/
inductive RcdType where
  | A
  | F
  | B
deriving Repr, DecidableEq

/-- The acCurrentBasis tag of the report details. -/
inductive AcCurrentBasis where
  | iacMax
  | iacNominal
  | fallbackSOverU
deriving Repr, DecidableEq

/-- Structured stand-ins for the analyzer's French error strings. -/
inductive CompatError where
  /-- "MPPT i: Surtension (...V > ...V)" (part_003 line 194). -/
  | overvoltage (mpptIndex : ℕ)
  /-- "MPPT i: Vmp chaud trop bas (...)" (part_003 line 205). -/
  | vmpTooLow (mpptIndex : ℕ)
  /-- "MPPT i: Courant trop élevé (...)" (part_003 line 216). -/
  | currentTooHigh (mpptIndex : ℕ)
  /-- "Tension panneau (...V) > Max Micro (...V)" (part_003 line 83). -/
  | microPanelVoltageTooHigh
  /-- "Répartition Incorrecte : a panneaux assignés sur b disponibles."
  (part_000 line 1232). -/
  | repartitionIncorrecte (assigned total : ℚ)
deriving Repr, DecidableEq

/-- Structured stand-ins for the analyzer's warning strings. -/
inductive CompatWarning where
  /-- "MPPT i: Voc froid proche limite (...)" (part_003 line 198). -/
  | vocNearLimit (mpptIndex : ℕ)
  /-- "MPPT i: Vmp chaud proche limite basse (...)" (part_003 line 209). -/
  | vmpNearLow (mpptIndex : ℕ)
deriving Repr, DecidableEq

/-- Source: MpptAnalysis (part_001 lines 195-213); the display-only
composition label is omitted. -/
structure MpptAnalysis where
  mpptIndex : ℕ
  totalPanelCount : ℚ
  vocCold : ℚ
  vmpHot : ℚ
  parallelStrings : ℕ
  iscMax : ℚ
  iscCalculation : ℚ
  isVoltageWarning : Bool
  isVoltageError : Bool
  isMpptError : Bool
  isMpptWarning : Bool
  isCurrentError : Bool
deriving Repr, DecidableEq

/-- Source: CompatibilityReport details (part_001 lines 219-241); the
display-only acCurrentBasisDetail string is omitted, tempsUsed is
flattened. -/
structure CompatibilityDetails where
  vocCold : ℚ
  vmaxInverter : ℚ
  vmpHot : ℚ
  vminMppt : ℚ
  iscPanel : ℚ
  iscCalculation : ℚ
  imaxInverter : ℚ
  dcAcRatioQ : ℚ
  maxAcPower : ℚ
  nominalAcCurrent : ℚ
  acCurrentBasis : AcCurrentBasis
  recommendedBreakerTheo : ℚ
  recommendedBreaker : ℤ
  rcdType : RcdType
  tempsUsedMin : ℚ
  tempsUsedMaxCell : ℚ
  stringsAnalysis : List MpptAnalysis
  maxPanelsInAString : ℚ
deriving Repr, DecidableEq

/-- Source: CompatibilityReport (part_001 lines 215-242). -/
structure CompatibilityReport where
  isCompatible : Bool
  warnings : List CompatWarning
  errors : List CompatError
  details : Option CompatibilityDetails
deriving Repr, DecidableEq

/-! ## Compatibility Analyzer (src/unnamed/part_003) -/

/-- Source: DEFAULT_TEMP_COEFF_VOC (part_003 line 3). -/
def DEFAULT_TEMP_COEFF_VOC : ℚ := -0.26

/-- Voc warning threshold VOC_WARN_RAT (part_003 line 35). -/
def vocWarnRat : ℚ := 0.95

/-- Vmp warning threshold VMP_WARN_RAT (part_003 line 38). -/
def vmpWarnRat : ℚ := 1.05

/-- The effective mppt key of a configured string: str.mpptIndex || 1
(part_003 line 118). -/
def mpptKeyOf (s : ConfiguredString) : ℕ :=
  if s.mpptIndex = 0 then 1 else s.mpptIndex

/-- Insert a key into an ascending duplicate-free key list. -/
def insertKey (k : ℕ) : List ℕ → List ℕ
  | [] => [k]
  | a :: t => if k < a then k :: a :: t else if k = a then a :: t else a :: insertKey k t

/-- Ascending duplicate-free mppt keys of the configured strings,
modelling the ascending integer-key enumeration of Object.entries over
the mpptGroups record (part_003 lines 110-122 and 139). -/
def sortedKeys (strs : List ConfiguredString) : List ℕ :=
  strs.foldl (fun acc s => insertKey (mpptKeyOf s) acc) []

/-- Source: the mpptGroups construction (part_003 lines 110-122): legacy
synthetic groups when no configured strings exist, else grouping by mppt
index.  The JavaScript numeric for-loop bound is modelled through jsCeil
of the (numeric) legacy strings count. -/
def buildMpptGroups (panelsPerStringLegacy : ℚ) (stringsCountLegacy : ℚ)
    (configuredStrings : List ConfiguredString) : List (ℕ × List ConfiguredString) :=
  if configuredStrings.isEmpty then
    let stringsCount := jsOr stringsCountLegacy 1
    (List.range (jsCeil stringsCount).toNat).map (fun i =>
      (i + 1, [⟨s!"legacy-{i}", "legacy", panelsPerStringLegacy, i + 1⟩]))
  else
    (sortedKeys configuredStrings).map
      (fun k => (k, configuredStrings.filter (fun s => mpptKeyOf s = k)))

/-- Source: parallelByMppt (part_003 lines 131-137) read back at line 141:
the last cabling run declared for an mppt index wins; runs with index 0
are skipped; the count is clamped to at least 1. -/
def parallelStringsFor (dcCablingRuns : List DcCablingRun) (idx : ℕ) : ℕ :=
  match (dcCablingRuns.filter (fun r => !(r.mpptIndex = 0) && (r.mpptIndex = idx))).getLast? with
  | none => 1
  | some r => (max 1 (jsRound (jsOr (r.parallelStrings.getD 1) 1))).toNat

/-- Per-group accumulation over the segments feeding one MPPT
(part_003 lines 142-165). -/
structure SegAcc where
  vocCold : ℚ
  vmpHot : ℚ
  iscMax : ℚ
  panelCount : ℚ
  power : ℚ
deriving Repr, DecidableEq

/-- Source: the segments.forEach body (part_003 lines 148-165). -/
def segStep (mainPanel : Panel) (fields : List RoofField) (tempMin tempCellHot : ℚ)
    (acc : SegAcc) (seg : ConfiguredString) : SegAcc :=
  let field := fields.find? (fun f => f.id = seg.fieldId)
  let panel := match field with
    | some f => f.panels.model
    | none => mainPanel
  match panel.electrical with
  | some p =>
    let coeffVoc := jsOr (p.tempCoeffVoc.getD 0) DEFAULT_TEMP_COEFF_VOC
    let vocColdPanel := p.voc * (1 + coeffVoc / 100 * (tempMin - 25))
    let vmpHotPanel := p.vmp * (1 + coeffVoc / 100 * (tempCellHot - 25))
    { vocCold := acc.vocCold + vocColdPanel * seg.panelCount
      vmpHot := acc.vmpHot + vmpHotPanel * seg.panelCount
      iscMax := if p.isc > acc.iscMax then p.isc else acc.iscMax
      panelCount := acc.panelCount + seg.panelCount
      power := acc.power + panel.power * seg.panelCount }
  | none =>
    { acc with panelCount := acc.panelCount + seg.panelCount }

/-- Accumulated per-MPPT quantities for one group of segments. -/
def segAccum (mainPanel : Panel) (fields : List RoofField) (tempMin tempCellHot : ℚ)
    (segments : List ConfiguredString) : SegAcc :=
  segments.foldl (segStep mainPanel fields tempMin tempCellHot)
    ⟨0, 0, 0, 0, 0⟩

/-- Analysis record and error/warning pushes for one MPPT group
(part_003 lines 167-217). -/
def analyzeMpptGroup (iSpecs : InverterElectricalSpecs) (a : SegAcc)
    (parallelStrings : ℕ) (idx : ℕ) :
    MpptAnalysis × List CompatError × List CompatWarning :=
  let mpptIscTotal := a.iscMax * parallelStrings
  let analysis : MpptAnalysis :=
    { mpptIndex := idx
      totalPanelCount := a.panelCount
      vocCold := toFixedVal 1 a.vocCold
      vmpHot := toFixedVal 1 a.vmpHot
      parallelStrings := parallelStrings
      iscMax := mpptIscTotal
      iscCalculation := toFixedVal 2 (mpptIscTotal * 1.25)
      isVoltageWarning :=
        (a.vocCold ≥ iSpecs.maxInputVoltage * vocWarnRat) ∧ (a.vocCold ≤ iSpecs.maxInputVoltage)
      isVoltageError := a.vocCold > iSpecs.maxInputVoltage
      isMpptError := a.vmpHot < iSpecs.minMpptVoltage
      isMpptWarning :=
        (a.vmpHot ≥ iSpecs.minMpptVoltage) ∧ (a.vmpHot ≤ iSpecs.minMpptVoltage * vmpWarnRat)
      isCurrentError := mpptIscTotal > iSpecs.maxInputCurrent }
  let vocErrs : List CompatError :=
    if a.vocCold > iSpecs.maxInputVoltage then [.overvoltage idx] else []
  let vocWarns : List CompatWarning :=
    if a.vocCold > iSpecs.maxInputVoltage then []
    else
      let rat := if iSpecs.maxInputVoltage > 0 then a.vocCold / iSpecs.maxInputVoltage else 0
      if rat ≥ vocWarnRat then [.vocNearLimit idx] else []
  let vmpErrs : List CompatError :=
    if a.vmpHot < iSpecs.minMpptVoltage then [.vmpTooLow idx] else []
  let vmpWarns : List CompatWarning :=
    if a.vmpHot < iSpecs.minMpptVoltage then []
    else
      let ratLow := if iSpecs.minMpptVoltage > 0 then a.vmpHot / iSpecs.minMpptVoltage else 0
      if ratLow ≤ vmpWarnRat then [.vmpNearLow idx] else []
  let curErrs : List CompatError :=
    if mpptIscTotal > iSpecs.maxInputCurrent then [.currentTooHigh idx] else []
  (analysis, vocErrs ++ vmpErrs ++ curErrs, vocWarns ++ vmpWarns)

/-- Mutable report/aggregate state threaded through the central loop
(part_003 lines 124-218). -/
structure CentralAcc where
  analyses : List MpptAnalysis
  errors : List CompatError
  warnings : List CompatWarning
  globalMaxVoc : ℚ
  globalMinVmp : ℚ
  totalPvPower : ℚ
  maxPanelsCount : ℚ
deriving Repr, DecidableEq

/-- One iteration of the central per-MPPT loop (part_003 lines 139-218). -/
def centralStep (iSpecs : InverterElectricalSpecs) (mainPanel : Panel)
    (fields : List RoofField) (tempMin tempCellHot : ℚ) (runs : List DcCablingRun)
    (acc : CentralAcc) (g : ℕ × List ConfiguredString) : CentralAcc :=
  let parallel := parallelStringsFor runs g.1
  let a := segAccum mainPanel fields tempMin tempCellHot g.2
  let out := analyzeMpptGroup iSpecs a parallel g.1
  { analyses := acc.analyses ++ [out.1]
    errors := acc.errors ++ out.2.1
    warnings := acc.warnings ++ out.2.2
    globalMaxVoc := if a.vocCold > acc.globalMaxVoc then a.vocCold else acc.globalMaxVoc
    globalMinVmp := if a.vmpHot < acc.globalMinVmp then a.vmpHot else acc.globalMinVmp
    totalPvPower := acc.totalPvPower + a.power
    maxPanelsCount := if a.panelCount > acc.maxPanelsCount then a.panelCount else acc.maxPanelsCount }

/-- Neutral report (part_003 lines 27-32). -/
def neutralReport : CompatibilityReport :=
  { isCompatible := true, warnings := [], errors := [], details := none }

/-- Source: checkElectricalCompatibility (part_003 lines 5-271).
Arguments follow the source signature; error and warning strings are
modelled by CompatError / CompatWarning. -/
def checkElectricalCompatibility (mainPanel : Panel) (inverter : Option Component)
    (climate : Option Climate) (panelsPerStringLegacy : ℚ) (totalPanelsLegacy : Option ℚ)
    (stringsCountLegacy : ℚ) (maxPanelsInAStringLegacy : ℚ)
    (configuredStrings : List ConfiguredString) (fields : List RoofField)
    (phase : Option PhaseMode) (dcCablingRuns : List DcCablingRun) : CompatibilityReport :=
  let tempMin : ℚ := match climate with
    | some c => c.tempMin
    | none => -10
  let tempAmbHot : ℚ := match climate with
    | some c => c.tempMaxAmb
    | none => 35
  let tempCellHot := tempAmbHot + 35
  match inverter with
  | none => neutralReport
  | some inv =>
    match inv.electrical with
    | none => neutralReport
    | some iSpecs =>
      let isMicro := iSpecs.maxInputVoltage < 100
      let rcdType : RcdType :=
        if isMicro then .F
        else if containsSub inv.id "H1" ∨ containsSub inv.id "H3" ∨
            containsSub inv.id "KH" ∨ containsSub inv.id "P3" then .B
        else .F
      if isMicro then
        match mainPanel.electrical with
        | none => neutralReport
        | some pSpecs =>
          let coeffVoc := jsOr (pSpecs.tempCoeffVoc.getD 0) DEFAULT_TEMP_COEFF_VOC
          let vocColdPanel := pSpecs.voc * (1 + coeffVoc / 100 * (tempMin - 25))
          let inputsPerMicro : ℕ := match iSpecs.mpptCount with
            | some n => if n = 0 then 1 else n
            | none => 1
          let pair : ℚ × ℚ := match totalPanelsLegacy with
            | some t =>
              if t > 0 then
                (((jsCeil (t / inputsPerMicro) : ℤ) : ℚ) * iSpecs.maxAcPower, mainPanel.power * t)
              else (iSpecs.maxAcPower, mainPanel.power * inputsPerMicro)
            | none => (iSpecs.maxAcPower, mainPanel.power * inputsPerMicro)
          let totalSystemAcPower := pair.1
          let totalSystemDcPower := pair.2
          let dcAcRat := if totalSystemAcPower > 0 then totalSystemDcPower / totalSystemAcPower else 0
          let isTri : Bool := match phase with
            | some p => p = PhaseMode.tri
            | none => false
          let nominalAcCurrent :=
            if isTri then totalSystemAcPower / (400 * 1.732) else totalSystemAcPower / 230
          let recommendedBreaker := nominalAcCurrent * 1.25
          let errs : List CompatError :=
            if vocColdPanel > iSpecs.maxInputVoltage then [.microPanelVoltageTooHigh] else []
          { isCompatible := errs.isEmpty
            warnings := []
            errors := errs
            details := some
              { vocCold := toFixedVal 1 vocColdPanel
                vmaxInverter := iSpecs.maxInputVoltage
                vmpHot := 0
                vminMppt := iSpecs.minMpptVoltage
                iscPanel := pSpecs.isc
                iscCalculation := toFixedVal 2 (pSpecs.isc * 1.25)
                imaxInverter := iSpecs.maxInputCurrent
                dcAcRatioQ := dcAcRat
                maxAcPower := totalSystemAcPower
                nominalAcCurrent := toFixedVal 1 nominalAcCurrent
                acCurrentBasis := .fallbackSOverU
                recommendedBreakerTheo := toFixedVal 1 recommendedBreaker
                recommendedBreaker := jsCeil recommendedBreaker
                rcdType := rcdType
                tempsUsedMin := tempMin
                tempsUsedMaxCell := tempCellHot
                stringsAnalysis := []
                maxPanelsInAString := 1 } }
      else
        let groups := buildMpptGroups panelsPerStringLegacy stringsCountLegacy configuredStrings
        let acc := groups.foldl
          (centralStep iSpecs mainPanel fields tempMin tempCellHot dcCablingRuns)
          ⟨[], [], [], 0, 10000, 0, 0⟩
        let maxAcPower := jsOr iSpecs.maxAcPower (inv.power.getD 0)
        let dcAcRat := if maxAcPower > 0 then acc.totalPvPower / maxAcPower else 0
        let isTri : Bool := match phase with
          | some p => p = PhaseMode.tri
          | none =>
            (iSpecs.maxAcPower > 6000 : Bool) || containsSub inv.id "TRI" || containsSub inv.id "T15"
        let viaMax : Option ℚ := match iSpecs.maxAcCurrent with
          | some v => if v > 0 then some v else none
          | none => none
        let viaNom : Option ℚ := match iSpecs.nominalAcCurrent with
          | some v => if v > 0 then some v else none
          | none => none
        let basisPair : ℚ × AcCurrentBasis := match viaMax, viaNom with
          | some v, _ => (v, .iacMax)
          | none, some v => (v, .iacNominal)
          | none, none =>
            ((if isTri then maxAcPower / (400 * 1.732) else maxAcPower / 230), .fallbackSOverU)
        let nominalAcCurrent := basisPair.1
        { isCompatible := acc.errors.isEmpty
          warnings := acc.warnings
          errors := acc.errors
          details := some
            { vocCold := toFixedVal 1 acc.globalMaxVoc
              vmaxInverter := iSpecs.maxInputVoltage
              vmpHot := toFixedVal 1 acc.globalMinVmp
              vminMppt := iSpecs.minMpptVoltage
              iscPanel := (mainPanel.electrical.map PanelElectricalSpecs.isc).getD 0
              iscCalculation :=
                toFixedVal 2 (((mainPanel.electrical.map PanelElectricalSpecs.isc).getD 0) * 1.25)
              imaxInverter := iSpecs.maxInputCurrent
              dcAcRatioQ := dcAcRat
              maxAcPower := maxAcPower
              nominalAcCurrent := toFixedVal 1 nominalAcCurrent
              acCurrentBasis := basisPair.2
              recommendedBreakerTheo := toFixedVal 1 (nominalAcCurrent * 1.25)
              recommendedBreaker := jsCeil (nominalAcCurrent * 1.25)
              rcdType := rcdType
              tempsUsedMin := tempMin
              tempsUsedMaxCell := tempCellHot
              stringsAnalysis := acc.analyses
              maxPanelsInAString := acc.maxPanelsCount } }

/-- Effective minimum temperature used by the analyzer (part_003 line 40). -/
def climTempMin (climate : Option Climate) : ℚ :=
  match climate with
  | some c => c.tempMin
  | none => -10

/-- Effective hot cell temperature used by the analyzer
(part_003 lines 41-42). -/
def climTempCell (climate : Option Climate) : ℚ :=
  (match climate with
    | some c => c.tempMaxAmb
    | none => 35) + 35

/-- Helper: errors accumulated by the central loop are the concatenation
of the per-group error lists. -/
theorem centralFold_errors (iSpecs : InverterElectricalSpecs) (mainPanel : Panel)
    (fields : List RoofField) (tempMin tempCellHot : ℚ) (runs : List DcCablingRun)
    (gs : List (ℕ × List ConfiguredString)) (acc : CentralAcc) :
    (gs.foldl (centralStep iSpecs mainPanel fields tempMin tempCellHot runs) acc).errors =
      acc.errors ++ (gs.map (fun g =>
        (analyzeMpptGroup iSpecs (segAccum mainPanel fields tempMin tempCellHot g.2)
          (parallelStringsFor runs g.1) g.1).2.1)).join := by
  induction gs generalizing acc with
  | nil => simp
  | cons g t ih =>
    simp only [List.foldl_cons, List.map_cons, List.join]
    rw [ih]
    simp [centralStep]

/-- Helper: membership of a current error in one group's error list. -/
theorem currentTooHigh_mem_groupErrors (iSpecs : InverterElectricalSpecs) (a : SegAcc)
    (parallel : ℕ) (gidx idx : ℕ) :
    (CompatError.currentTooHigh idx ∈ (analyzeMpptGroup iSpecs a parallel gidx).2.1) ↔
      (gidx = idx ∧ a.iscMax * (parallel : ℚ) > iSpecs.maxInputCurrent) := by
  unfold analyzeMpptGroup
  simp only [List.mem_append]
  split_ifs <;> simp_all [eq_comm]

/-- C10: calling checkElectricalCompatibility with a missing inverter or
an inverter carrying no electrical-specs record returns the neutral
report: isCompatible = true, no warnings, no errors, details = null. -/
theorem check_missing_inverter_neutral (mainPanel : Panel) (inverter : Option Component)
    (climate : Option Climate) (pps : ℚ) (tpl : Option ℚ) (scl mpl : ℚ)
    (strs : List ConfiguredString) (fields : List RoofField)
    (phase : Option PhaseMode) (runs : List DcCablingRun)
    (h : inverter = none ∨ ∃ inv, inverter = some inv ∧ inv.electrical = none) :
    checkElectricalCompatibility mainPanel inverter climate pps tpl scl mpl strs fields
        phase runs =
      { isCompatible := true, warnings := [], errors := [], details := none } := by
  rcases h with h | ⟨inv, hinv, helec⟩
  · subst h
    rfl
  · subst hinv
    simp [checkElectricalCompatibility, helec, neutralReport]

/-- C10 witness: the neutral report at a concrete call with a null
inverter. -/
theorem check_missing_inverter_neutral_witness :
    checkElectricalCompatibility ⟨"P", 500, none⟩ none none 1 none 1 0 [] [] none [] =
      { isCompatible := true, warnings := [], errors := [], details := none } :=
  check_missing_inverter_neutral ⟨"P", 500, none⟩ none none 1 none 1 0 [] [] none []
    (Or.inl rfl)

/-- Shared fixture: a 500 W panel with Voc 40 V, Isc 10 A, Vmp 35 V. -/
def samplePanel : Panel := ⟨"DMEGC 500", 500, some ⟨40, 10, 35, 9, none, none⟩⟩

/-- Shared fixture: central-inverter electrical specs with an adjustable
maximum input current. -/
def sampleCentralSpecs (imax : ℚ) : InverterElectricalSpecs :=
  ⟨600, 20, 800, imax, 3000, none, none, none, none, none, none⟩

/-- Shared fixture: a central inverter component. -/
def sampleInverter (imax : ℚ) : Component :=
  ⟨"FOX-X-3000", none, some (sampleCentralSpecs imax)⟩

/-- C1 amended: in a central-inverter configuration the analyzer raises
the blocking current error for an MPPT exactly when
max(per-segment Isc) × parallelStringCount — without the 1.25 factor —
exceeds the inverter's maximum input current, and any such error makes the
report incompatible. -/
theorem central_currentError_iff (mainPanel : Panel) (inv : Component)
    (iSpecs : InverterElectricalSpecs) (climate : Option Climate) (pps : ℚ)
    (tpl : Option ℚ) (scl mpl : ℚ) (strs : List ConfiguredString)
    (fields : List RoofField) (phase : Option PhaseMode) (runs : List DcCablingRun)
    (hspec : inv.electrical = some iSpecs) (hcentral : ¬ iSpecs.maxInputVoltage < 100) :
    (∀ idx : ℕ,
      CompatError.currentTooHigh idx ∈
          (checkElectricalCompatibility mainPanel (some inv) climate pps tpl scl mpl
            strs fields phase runs).errors ↔
        ∃ g ∈ buildMpptGroups pps scl strs, g.1 = idx ∧
          (segAccum mainPanel fields (climTempMin climate) (climTempCell climate) g.2).iscMax *
              (parallelStringsFor runs g.1 : ℚ) >
            iSpecs.maxInputCurrent) ∧
    (∀ idx : ℕ,
      CompatError.currentTooHigh idx ∈
          (checkElectricalCompatibility mainPanel (some inv) climate pps tpl scl mpl
            strs fields phase runs).errors →
        (checkElectricalCompatibility mainPanel (some inv) climate pps tpl scl mpl
            strs fields phase runs).isCompatible = false) := by
  have herr : (checkElectricalCompatibility mainPanel (some inv) climate pps tpl scl mpl
        strs fields phase runs).errors =
      ((buildMpptGroups pps scl strs).map (fun g =>
        (analyzeMpptGroup iSpecs
          (segAccum mainPanel fields (climTempMin climate) (climTempCell climate) g.2)
          (parallelStringsFor runs g.1) g.1).2.1)).join := by
    simp only [checkElectricalCompatibility, hspec, if_neg hcentral]
    rw [centralFold_errors]
    simp [climTempMin, climTempCell]
  have hcompat : (checkElectricalCompatibility mainPanel (some inv) climate pps tpl scl mpl
        strs fields phase runs).isCompatible =
      (checkElectricalCompatibility mainPanel (some inv) climate pps tpl scl mpl
        strs fields phase runs).errors.isEmpty := by
    simp only [checkElectricalCompatibility, hspec, if_neg hcentral]
  constructor
  · intro idx
    rw [herr]
    simp only [List.mem_join, List.mem_map]
    constructor
    · rintro ⟨l, ⟨g, hg, rfl⟩, hmem⟩
      rcases (currentTooHigh_mem_groupErrors _ _ _ _ _).mp hmem with ⟨hgi, hcur⟩
      exact ⟨g, hg, hgi, hcur⟩
    · rintro ⟨g, hg, hgi, hcur⟩
      exact ⟨_, ⟨g, hg, rfl⟩, (currentTooHigh_mem_groupErrors _ _ _ _ _).mpr ⟨hgi, hcur⟩⟩
  · intro idx hmem
    rw [hcompat]
    rcases hlist : (checkElectricalCompatibility mainPanel (some inv) climate pps tpl scl mpl
        strs fields phase runs).errors with _ | ⟨e, t⟩
    · rw [hlist] at hmem
      simp at hmem
    · simp [List.isEmpty]

/-- C1 witness: at Isc 10 A, one parallel string and a 9 A input limit the
current error is raised and blocks the report. -/
theorem central_currentError_iff_witness :
    CompatError.currentTooHigh 1 ∈
        (checkElectricalCompatibility samplePanel (some (sampleInverter 9)) none 1 none 1 0
          [⟨"s1", "f1", 2, 1⟩] [] none []).errors ∧
      (checkElectricalCompatibility samplePanel (some (sampleInverter 9)) none 1 none 1 0
          [⟨"s1", "f1", 2, 1⟩] [] none []).isCompatible = false := by
  have h := central_currentError_iff samplePanel (sampleInverter 9) (sampleCentralSpecs 9)
    none 1 none 1 0 [⟨"s1", "f1", 2, 1⟩] [] none [] rfl
    (by norm_num [sampleCentralSpecs])
  have hmem := (h.1 1).mpr ⟨(1, [⟨"s1", "f1", 2, 1⟩]),
    by
      norm_num [buildMpptGroups, sortedKeys, insertKey, mpptKeyOf, List.filter],
    rfl,
    by
      norm_num [segAccum, segStep, samplePanel, parallelStringsFor, sampleCentralSpecs,
        jsOr, DEFAULT_TEMP_COEFF_VOC]⟩
  exact ⟨hmem, h.2 1 hmem⟩

/-- C1 counterexample: with Isc 10 A, one parallel string and an 11 A
limit, the claimed calculation current 10 × 1 × 1.25 = 12.5 A exceeds the
limit, yet the report raises no current error and stays compatible. -/
theorem central_currentError_claim_false :
    (10 : ℚ) * 1 * 1.25 > (sampleCentralSpecs 11).maxInputCurrent ∧
    (checkElectricalCompatibility samplePanel (some (sampleInverter 11)) none 1 none 1 0
        [⟨"s1", "f1", 2, 1⟩] [] none []).errors = [] ∧
    (checkElectricalCompatibility samplePanel (some (sampleInverter 11)) none 1 none 1 0
        [⟨"s1", "f1", 2, 1⟩] [] none []).isCompatible = true := by
  refine ⟨by norm_num [sampleCentralSpecs], ?_, ?_⟩ <;>
    norm_num [checkElectricalCompatibility, samplePanel, sampleInverter, sampleCentralSpecs,
      buildMpptGroups, sortedKeys, insertKey, mpptKeyOf, segAccum, segStep, analyzeMpptGroup,
      centralStep, parallelStringsFor, jsOr, DEFAULT_TEMP_COEFF_VOC, vocWarnRat, vmpWarnRat,
      List.filter, List.foldl, List.isEmpty]

/-! ## Compatibility report assembly (src/unnamed/part_000, lines 1209-1266) -/

/-- Source: getPanelCount (part_002 lines 7-12): sum of the per-row counts
when an explicit row configuration is present, else rows × columns. -/
def getPanelCount (panels : PanelConfig) : ℚ :=
  match panels.rowConfiguration with
  | some rc => if rc.length > 0 then rc.foldl (· + ·) 0 else panels.rows * panels.columns
  | none => panels.rows * panels.columns

/-- Source: requiresStringConfig (part_000 line 1224): FoxESS non-micro
models and custom inverters require an explicit string assignment. -/
def requiresStringConfig (brand : InverterBrand) (model : Option String) : Bool :=
  ((brand = InverterBrand.foxess : Bool) &&
    (match model with
      | some m => !containsSub m "MICRO"
      | none => true)) ||
  (brand = InverterBrand.custom : Bool)

/-- Source: the compatibilityReport memo body (part_000 lines 1209-1254).
The catalog-driven resolution of the active inverter (lines 1214-1221,
including the Auto-model selection over the inverter database) is outside
this function and enters as the activeInverter argument; the active roof
field is picked from fields by activeFieldIndex with the source's
fields[activeFieldIndex] || fields[0] fallback. -/
def compatibilityReportCore (fields : List RoofField) (activeFieldIndex : ℕ)
    (brand : InverterBrand) (model : Option String)
    (configuredStrings : List ConfiguredString) (stringsCount : Option ℚ)
    (phase : Option PhaseMode) (dcCablingRuns : List DcCablingRun)
    (activeInverter : Option Component) (projectClimate : Option Climate) :
    Option CompatibilityReport :=
  let panelsPerField := fields.map (fun f => getPanelCount f.panels)
  let totalPanelsCount := panelsPerField.foldl (· + ·) 0
  if totalPanelsCount = 0 then none
  else
    match activeInverter with
    | none => none
    | some inv =>
      let totalAssigned := configuredStrings.foldl (fun acc s => acc + s.panelCount) 0
      if requiresStringConfig brand model = true ∧ ¬ totalAssigned = totalPanelsCount then
        some { isCompatible := false, warnings := [],
               errors := [CompatError.repartitionIncorrecte totalAssigned totalPanelsCount],
               details := none }
      else
        let stringsLegacy := jsOr (stringsCount.getD 0) 1
        match (fields.get? activeFieldIndex).orElse (fun _ => fields.head?) with
        | none => none
        | some activeField =>
          some (checkElectricalCompatibility activeField.panels.model (some inv)
            projectClimate ((jsCeil (totalPanelsCount / stringsLegacy) : ℤ) : ℚ)
            (some totalPanelsCount) stringsLegacy 0 configuredStrings fields phase
            dcCablingRuns)

/-- Shared fixture: a roof field of 2 panels (2 rows × 1 column) of the
sample panel. -/
def sampleField (idStr nameStr : String) : RoofField :=
  ⟨idStr, nameStr, ⟨samplePanel, 2, 1, none⟩⟩

/-- C2 amended: whenever string assignment is required and the total
panel count assigned across all configured strings differs from the total
panel count over all fields, the report is blocked with the explicit
Répartition Incorrecte error. -/
theorem repartition_error_on_global_mismatch (fields : List RoofField)
    (activeFieldIndex : ℕ) (brand : InverterBrand) (model : Option String)
    (configuredStrings : List ConfiguredString) (stringsCount : Option ℚ)
    (phase : Option PhaseMode) (dcCablingRuns : List DcCablingRun)
    (inv : Component) (projectClimate : Option Climate)
    (htotal : ¬ (fields.map (fun f => getPanelCount f.panels)).foldl (· + ·) 0 = 0)
    (hreq : requiresStringConfig brand model = true)
    (hmismatch : ¬ configuredStrings.foldl (fun acc s => acc + s.panelCount) 0 =
      (fields.map (fun f => getPanelCount f.panels)).foldl (· + ·) 0) :
    compatibilityReportCore fields activeFieldIndex brand model configuredStrings
        stringsCount phase dcCablingRuns (some inv) projectClimate =
      some { isCompatible := false, warnings := [],
             errors := [CompatError.repartitionIncorrecte
               (configuredStrings.foldl (fun acc s => acc + s.panelCount) 0)
               ((fields.map (fun f => getPanelCount f.panels)).foldl (· + ·) 0)],
             details := none } := by
  unfold compatibilityReportCore
  rw [if_neg htotal]
  simp only []
  rw [if_pos ⟨hreq, hmismatch⟩]

/-- C2 amended witness: strings totalling 3 panels against a 2-panel
field produce the blocking Répartition Incorrecte report. -/
theorem repartition_error_on_global_mismatch_witness :
    compatibilityReportCore [sampleField "f1" "Toiture 1"] 0 InverterBrand.custom none
        [⟨"s1", "f1", 3, 1⟩] none none [] (some (sampleInverter 20)) none =
      some { isCompatible := false, warnings := [],
             errors := [CompatError.repartitionIncorrecte 3 2], details := none } := by
  have h := repartition_error_on_global_mismatch [sampleField "f1" "Toiture 1"] 0
    InverterBrand.custom none [⟨"s1", "f1", 3, 1⟩] none none [] (sampleInverter 20) none
    (by norm_num [sampleField, getPanelCount, samplePanel])
    (by simp [requiresStringConfig])
    (by norm_num [sampleField, getPanelCount, samplePanel])
  rw [h]
  norm_num [sampleField, getPanelCount, samplePanel]

/-- C2 counterexample: two 2-panel fields with per-field assignments 3 and
1 (field f1 over-assigned, field f2 under-assigned) cancel out globally,
so the code raises no Répartition Incorrecte error and reports
isCompatible = true, although the claim requires a blocking error for each
mismatched field. -/
theorem repartition_per_field_mismatch_not_flagged :
    ¬ ((([⟨"s1", "f1", 3, 1⟩, ⟨"s2", "f2", 1, 2⟩] : List ConfiguredString).filter
        (fun s => s.fieldId = "f1")).foldl (fun acc s => acc + s.panelCount) 0 =
      getPanelCount (sampleField "f1" "Toiture 1").panels) ∧
    compatibilityReportCore [sampleField "f1" "Toiture 1", sampleField "f2" "Toiture 2"] 0
        InverterBrand.custom none [⟨"s1", "f1", 3, 1⟩, ⟨"s2", "f2", 1, 2⟩] none none []
        (some (sampleInverter 20)) none =
      some (checkElectricalCompatibility samplePanel (some (sampleInverter 20)) none 4
        (some 4) 1 0 [⟨"s1", "f1", 3, 1⟩, ⟨"s2", "f2", 1, 2⟩]
        [sampleField "f1" "Toiture 1", sampleField "f2" "Toiture 2"] none []) ∧
    (checkElectricalCompatibility samplePanel (some (sampleInverter 20)) none 4
        (some 4) 1 0 [⟨"s1", "f1", 3, 1⟩, ⟨"s2", "f2", 1, 2⟩]
        [sampleField "f1" "Toiture 1", sampleField "f2" "Toiture 2"] none []).errors = [] ∧
    (checkElectricalCompatibility samplePanel (some (sampleInverter 20)) none 4
        (some 4) 1 0 [⟨"s1", "f1", 3, 1⟩, ⟨"s2", "f2", 1, 2⟩]
        [sampleField "f1" "Toiture 1", sampleField "f2" "Toiture 2"] none []).isCompatible
      = true := by
  refine ⟨?_, ?_, ?_, ?_⟩
  · simp [sampleField, getPanelCount, samplePanel, List.filter_cons, List.filter_nil]
  · unfold compatibilityReportCore
    simp [sampleField, getPanelCount, samplePanel, requiresStringConfig, jsOr, jsCeil]
    all_goals norm_num
  · simp [checkElectricalCompatibility, samplePanel, sampleInverter, sampleCentralSpecs,
      sampleField, buildMpptGroups, sortedKeys, insertKey, mpptKeyOf, segAccum, segStep,
      analyzeMpptGroup, centralStep, parallelStringsFor, jsOr, DEFAULT_TEMP_COEFF_VOC,
      vocWarnRat, vmpWarnRat, List.filter_cons, List.filter_nil, List.find?, List.foldl,
      List.isEmpty]
    all_goals norm_num
  · simp [checkElectricalCompatibility, samplePanel, sampleInverter, sampleCentralSpecs,
      sampleField, buildMpptGroups, sortedKeys, insertKey, mpptKeyOf, segAccum, segStep,
      analyzeMpptGroup, centralStep, parallelStringsFor, jsOr, DEFAULT_TEMP_COEFF_VOC,
      vocWarnRat, vmpWarnRat, List.filter_cons, List.filter_nil, List.find?, List.foldl,
      List.isEmpty]
    all_goals norm_num

/-! ## Cable-coil merge of the BOM (src/unnamed/part_000, lines 95-139)

The JavaScript routine builds a Map keyed by catalog id for cable items
and by a fresh random string (prefixed with two underscores) for every
non-cable item.  The Math.random() draws are modelled by an explicit key
stream keyFor : ℕ → String, consumed once per non-cable item.  The map is
modelled as an insertion-ordered association list with in-place value
update, which is the observable behaviour of a JavaScript Map. -/

/-- Source: Material (part_001 lines 155-161); datasheetUrl omitted. -/
structure Material where
  id : String
  description : String
  quantity : ℚ
  price : Option String
deriving Repr, DecidableEq

/-- Map entry: the stored material plus the internal _reasons set (kept in
insertion order, present only on entries first stored as cables). -/
structure MEntry where
  m : Material
  reasons : Option (List String)
deriving Repr, DecidableEq

/-- Source: isCable (part_000 lines 98-103), as a function of the catalog
id only: a catalog description containing CABLE wins; otherwise ids of 8+
digits (Miguelez) or ids starting with CABLE- count as cables. -/
def isCableId (cableDb : String → Option String) (idStr : String) : Bool :=
  match cableDb idStr with
  | some d => containsSub (strToUpper d) "CABLE"
  | none => ((idStr.data.length ≥ 8 : Bool) && idStr.data.all Char.isDigit) ||
      List.isPrefixOf "CABLE-".data idStr.data

/-- The cable test applied to a BOM line. -/
def isCable (cableDb : String → Option String) (it : Material) : Bool :=
  isCableId cableDb it.id

/-- JavaScript Map.get on the association-list model. -/
def mapGet (k : String) : List (String × MEntry) → Option MEntry
  | [] => none
  | kv :: t => if kv.1 = k then some kv.2 else mapGet k t

/-- JavaScript Map.set on the association-list model: update in place,
else append. -/
def mapSet (k : String) (v : MEntry) : List (String × MEntry) → List (String × MEntry)
  | [] => [(k, v)]
  | kv :: t => if kv.1 = k then (k, v) :: t else kv :: mapSet k v t

/-- Set.add on the insertion-ordered reason list (part_000 line 122). -/
def addReason (l : List String) (d : String) : List String :=
  if d ∈ l then l else l ++ [d]

/-- Array.from(reasons).filter(Boolean).join(" / ") (part_000
lines 123-125). -/
def joinReasons (l : List String) : String :=
  String.intercalate " / " (l.filter (fun d => !(d = "")))

/-- One iteration of the merge loop (part_000 lines 105-126), carrying the
map and the number of random keys drawn so far. -/
def mergeStep (cableDb : String → Option String) (keyFor : ℕ → String)
    (st : List (String × MEntry) × ℕ) (it : Material) : List (String × MEntry) × ℕ :=
  if isCable cableDb it then
    match mapGet it.id st.1 with
    | none => (mapSet it.id ⟨it, some [it.description]⟩ st.1, st.2)
    | some e =>
      let reasons := e.reasons.map (fun rs => addReason rs it.description)
      let q := max (jsOr e.m.quantity 1) (jsOr it.quantity 1)
      (mapSet it.id
        ⟨{ e.m with quantity := q, description := joinReasons (reasons.getD []) }, reasons⟩
        st.1, st.2)
  else
    (mapSet ("__" ++ keyFor st.2) ⟨it, none⟩ st.1, st.2 + 1)

/-- Source: mergeCableCoilsInBOM (part_000 lines 95-139).  The final pass
(lines 128-137) drops the artificial key prefix and the internal _reasons
set; both are invisible in the returned Material records, so the result is
the in-order list of stored materials. -/
def mergeCableCoilsInBOM (cableDb : String → Option String) (keyFor : ℕ → String)
    (items : List Material) : List Material :=
  ((items.foldl (mergeStep cableDb keyFor) ([], 0)).1).map (fun kv => kv.2.m)

/-- Admissibility of a random-key stream for a list of items: the drawn
keys are pairwise distinct and the prefixed keys never collide with an
item id.  Math.random() keys satisfy this with probability 1. -/
def GoodKeys (keyFor : ℕ → String) (items : List Material) : Prop :=
  (∀ n n', keyFor n = keyFor n' → n = n') ∧
  (∀ n, ∀ it ∈ items, ¬ "__" ++ keyFor n = it.id)

/-- Appending to a string is left-cancellative. -/
theorem str_append_left_cancel {p a b : String} (h : p ++ a = p ++ b) : a = b := by
  have hd : p.data ++ a.data = p.data ++ b.data := by
    simpa [String.data_append] using congrArg String.data h
  exact String.ext (List.append_cancel_left hd)

/-- Map lookup after an update. -/
theorem mapGet_mapSet (k x : String) (v : MEntry) (s : List (String × MEntry)) :
    mapGet x (mapSet k v s) = if x = k then some v else mapGet x s := by
  induction s with
  | nil => simp [mapSet, mapGet, eq_comm]
  | cons kv t ih =>
    by_cases h1 : kv.1 = k <;> by_cases h2 : kv.1 = x <;> by_cases h3 : x = k <;>
      simp_all [mapSet, mapGet]

/-- Members of an updated map are the new binding or old members. -/
theorem mem_mapSet_cases (kv : String × MEntry) (k : String) (v : MEntry)
    (s : List (String × MEntry)) (h : kv ∈ mapSet k v s) :
    (kv.1 = k ∧ kv.2 = v) ∨ kv ∈ s := by
  induction s with
  | nil =>
    simp only [mapSet, List.mem_singleton] at h
    exact Or.inl (by simp [h])
  | cons kv0 t ih =>
    simp only [mapSet] at h
    split_ifs at h with h0
    · rcases List.mem_cons.mp h with h | h
      · exact Or.inl (by simp [h])
      · exact Or.inr (List.mem_cons_of_mem kv0 h)
    · rcases List.mem_cons.mp h with h | h
      · exact Or.inr (by simp [h])
      · rcases ih h with h | h
        · exact Or.inl h
        · exact Or.inr (List.mem_cons_of_mem kv0 h)

/-- Relation between two merge states that differ only in the names of
their random keys. -/
def EntryRel (ids : List String) (a b : String × MEntry) : Prop :=
  a.2 = b.2 ∧ (a.1 = b.1 ∨ (a.1 ∉ ids ∧ b.1 ∉ ids))

/-- Related states agree on lookups of item ids. -/
theorem rel_mapGet {ids : List String} {s1 s2 : List (String × MEntry)}
    (h : List.Forall₂ (EntryRel ids) s1 s2) (x : String) (hx : x ∈ ids) :
    mapGet x s1 = mapGet x s2 := by
  induction h with
  | nil => rfl
  | cons hab htail ih =>
    rename_i a b t1 t2
    obtain ⟨hv, hk | ⟨hka, hkb⟩⟩ := hab
    · simp only [mapGet, hk, hv]
      split_ifs with hcond
      · rfl
      · exact ih
    · have hne1 : ¬ a.1 = x := fun he => hka (by rw [he]; exact hx)
      have hne2 : ¬ b.1 = x := fun he => hkb (by rw [he]; exact hx)
      simp only [mapGet, if_neg hne1, if_neg hne2]
      exact ih

/-- Updating an item-id key preserves the state relation. -/
theorem rel_mapSet_id {ids : List String} {s1 s2 : List (String × MEntry)}
    (h : List.Forall₂ (EntryRel ids) s1 s2) (x : String) (hx : x ∈ ids) (v : MEntry) :
    List.Forall₂ (EntryRel ids) (mapSet x v s1) (mapSet x v s2) := by
  induction h with
  | nil => exact List.Forall₂.cons ⟨rfl, Or.inl rfl⟩ List.Forall₂.nil
  | cons hab htail ih =>
    rename_i a b t1 t2
    obtain ⟨hv, hk | ⟨hka, hkb⟩⟩ := hab
    · by_cases hax : a.1 = x
      · simp only [mapSet, if_pos hax, if_pos (hk ▸ hax)]
        exact List.Forall₂.cons ⟨rfl, Or.inl rfl⟩ htail
      · simp only [mapSet, if_neg hax, if_neg (fun hbx => hax (hk.trans hbx))]
        exact List.Forall₂.cons ⟨hv, Or.inl hk⟩ ih
    · have hne1 : ¬ a.1 = x := fun he => hka (by rw [he]; exact hx)
      have hne2 : ¬ b.1 = x := fun he => hkb (by rw [he]; exact hx)
      simp only [mapSet, if_neg hne1, if_neg hne2]
      exact List.Forall₂.cons ⟨hv, Or.inr ⟨hka, hkb⟩⟩ ih

/-- Appending fresh (absent, non-id) keys preserves the state relation. -/
theorem rel_mapSet_fresh {ids : List String} {s1 s2 : List (String × MEntry)}
    (h : List.Forall₂ (EntryRel ids) s1 s2) {ka kb : String}
    (h1 : ka ∉ ids) (h2 : kb ∉ ids)
    (hn1 : ∀ kv ∈ s1, ¬ kv.1 = ka) (hn2 : ∀ kv ∈ s2, ¬ kv.1 = kb) (v : MEntry) :
    List.Forall₂ (EntryRel ids) (mapSet ka v s1) (mapSet kb v s2) := by
  induction h with
  | nil => exact List.Forall₂.cons ⟨rfl, Or.inr ⟨h1, h2⟩⟩ List.Forall₂.nil
  | cons hab htail ih =>
    rename_i a b t1 t2
    simp only [mapSet, if_neg (hn1 a (by simp)), if_neg (hn2 b (by simp))]
    exact List.Forall₂.cons hab
      (ih (fun kv hkv => hn1 kv (by simp [hkv])) (fun kv hkv => hn2 kv (by simp [hkv])))

/-- Core induction for key-stream irrelevance: from related states with
equal draw counters, processing the same items keeps the states related. -/
theorem mergeFold_rel (db : String → Option String) (k1 k2 : ℕ → String)
    (ids : List String)
    (hinj1 : ∀ n n', k1 n = k1 n' → n = n') (hinj2 : ∀ n n', k2 n = k2 n' → n = n')
    (hf1 : ∀ n, "__" ++ k1 n ∉ ids) (hf2 : ∀ n, "__" ++ k2 n ∉ ids) :
    ∀ (todo : List Material), (∀ it ∈ todo, it.id ∈ ids) →
      ∀ (s1 s2 : List (String × MEntry)) (n : ℕ),
        List.Forall₂ (EntryRel ids) s1 s2 →
        (∀ kv ∈ s1, kv.1 ∈ ids ∨ ∃ m, m < n ∧ kv.1 = "__" ++ k1 m) →
        (∀ kv ∈ s2, kv.1 ∈ ids ∨ ∃ m, m < n ∧ kv.1 = "__" ++ k2 m) →
        List.Forall₂ (EntryRel ids)
          (todo.foldl (mergeStep db k1) (s1, n)).1
          (todo.foldl (mergeStep db k2) (s2, n)).1 := by
  intro todo
  induction todo with
  | nil => intro _ s1 s2 n hrel _ _; exact hrel
  | cons it t ih =>
    intro hsub s1 s2 n hrel hb1 hb2
    have hid : it.id ∈ ids := hsub it (by simp)
    have hsub' : ∀ x ∈ t, x.id ∈ ids := fun x hx => hsub x (by simp [hx])
    simp only [List.foldl_cons]
    by_cases hc : isCable db it = true
    · have hget : mapGet it.id s1 = mapGet it.id s2 := rel_mapGet hrel it.id hid
      cases he : mapGet it.id s1 with
      | none =>
        have hstep1 : mergeStep db k1 (s1, n) it =
            (mapSet it.id ⟨it, some [it.description]⟩ s1, n) := by
          simp [mergeStep, hc, he]
        have hstep2 : mergeStep db k2 (s2, n) it =
            (mapSet it.id ⟨it, some [it.description]⟩ s2, n) := by
          simp [mergeStep, hc, ← hget, he]
        rw [hstep1, hstep2]
        refine ih hsub' _ _ n (rel_mapSet_id hrel it.id hid _) ?_ ?_
        · intro kv hkv
          rcases mem_mapSet_cases kv _ _ _ hkv with h | h
          · exact Or.inl (by rw [h.1]; exact hid)
          · exact hb1 kv h
        · intro kv hkv
          rcases mem_mapSet_cases kv _ _ _ hkv with h | h
          · exact Or.inl (by rw [h.1]; exact hid)
          · exact hb2 kv h
      | some e =>
        have hstep1 : mergeStep db k1 (s1, n) it =
            (mapSet it.id
              ⟨{ e.m with
                  quantity := max (jsOr e.m.quantity 1) (jsOr it.quantity 1),
                  description :=
                    joinReasons ((e.reasons.map (fun rs => addReason rs it.description)).getD []) },
                e.reasons.map (fun rs => addReason rs it.description)⟩ s1, n) := by
          simp [mergeStep, hc, he]
        have hstep2 : mergeStep db k2 (s2, n) it =
            (mapSet it.id
              ⟨{ e.m with
                  quantity := max (jsOr e.m.quantity 1) (jsOr it.quantity 1),
                  description :=
                    joinReasons ((e.reasons.map (fun rs => addReason rs it.description)).getD []) },
                e.reasons.map (fun rs => addReason rs it.description)⟩ s2, n) := by
          simp [mergeStep, hc, ← hget, he]
        rw [hstep1, hstep2]
        refine ih hsub' _ _ n (rel_mapSet_id hrel it.id hid _) ?_ ?_
        · intro kv hkv
          rcases mem_mapSet_cases kv _ _ _ hkv with h | h
          · exact Or.inl (by rw [h.1]; exact hid)
          · exact hb1 kv h
        · intro kv hkv
          rcases mem_mapSet_cases kv _ _ _ hkv with h | h
          · exact Or.inl (by rw [h.1]; exact hid)
          · exact hb2 kv h
    · have hstep1 : mergeStep db k1 (s1, n) it =
          (mapSet ("__" ++ k1 n) ⟨it, none⟩ s1, n + 1) := by
        simp [mergeStep, hc]
      have hstep2 : mergeStep db k2 (s2, n) it =
          (mapSet ("__" ++ k2 n) ⟨it, none⟩ s2, n + 1) := by
        simp [mergeStep, hc]
      rw [hstep1, hstep2]
      have hn1 : ∀ kv ∈ s1, ¬ kv.1 = "__" ++ k1 n := by
        intro kv hkv he
        rcases hb1 kv hkv with h | ⟨m, hm, hkm⟩
        · exact hf1 n (he ▸ h)
        · rw [hkm] at he
          exact absurd (hinj1 m n (str_append_left_cancel he)) (Nat.ne_of_lt hm)
      have hn2 : ∀ kv ∈ s2, ¬ kv.1 = "__" ++ k2 n := by
        intro kv hkv he
        rcases hb2 kv hkv with h | ⟨m, hm, hkm⟩
        · exact hf2 n (he ▸ h)
        · rw [hkm] at he
          exact absurd (hinj2 m n (str_append_left_cancel he)) (Nat.ne_of_lt hm)
      refine ih hsub' _ _ (n + 1)
        (rel_mapSet_fresh hrel (hf1 n) (hf2 n) hn1 hn2 _) ?_ ?_
      · intro kv hkv
        rcases mem_mapSet_cases kv _ _ _ hkv with h | h
        · exact Or.inr ⟨n, Nat.lt_succ_self n, h.1⟩
        · rcases hb1 kv h with hh | ⟨m, hm, hkm⟩
          · exact Or.inl hh
          · exact Or.inr ⟨m, Nat.lt_succ_of_lt hm, hkm⟩
      · intro kv hkv
        rcases mem_mapSet_cases kv _ _ _ hkv with h | h
        · exact Or.inr ⟨n, Nat.lt_succ_self n, h.1⟩
        · rcases hb2 kv h with hh | ⟨m, hm, hkm⟩
          · exact Or.inl hh
          · exact Or.inr ⟨m, Nat.lt_succ_of_lt hm, hkm⟩

/-- Keys after an update are old keys or the updated key. -/
theorem keys_mapSet_subset (k : String) (v : MEntry) (s : List (String × MEntry)) :
    ∀ key ∈ (mapSet k v s).map Prod.fst, key ∈ s.map Prod.fst ∨ key = k := by
  induction s with
  | nil => simp [mapSet]
  | cons kv t ih =>
    by_cases h1 : kv.1 = k
    · intro key hkey
      simp only [mapSet, if_pos h1, List.map_cons, List.mem_cons] at hkey
      rcases hkey with h | h
      · exact Or.inr h
      · exact Or.inl (by simp [h])
    · intro key hkey
      simp only [mapSet, if_neg h1, List.map_cons, List.mem_cons] at hkey
      rcases hkey with h | h
      · exact Or.inl (by simp [h])
      · rcases ih key h with hh | hh
        · exact Or.inl (by simp [hh])
        · exact Or.inr hh

/-- An update never introduces a duplicate key. -/
theorem nodup_keys_mapSet (k : String) (v : MEntry) (s : List (String × MEntry))
    (hnodup : (s.map Prod.fst).Nodup) : ((mapSet k v s).map Prod.fst).Nodup := by
  induction s with
  | nil => simp [mapSet]
  | cons kv t ih =>
    have hnod := List.nodup_cons.mp
      (show (kv.1 :: t.map Prod.fst).Nodup by rw [List.map_cons] at hnodup; exact hnodup)
    by_cases h1 : kv.1 = k
    · simp only [mapSet, if_pos h1, List.map_cons]
      rw [List.nodup_cons]
      exact ⟨by rw [← h1]; exact hnod.1, hnod.2⟩
    · simp only [mapSet, if_neg h1, List.map_cons]
      rw [List.nodup_cons]
      refine ⟨?_, ih hnod.2⟩
      intro hmem
      rcases keys_mapSet_subset k v t kv.1 hmem with hh | hh
      · exact hnod.1 hh
      · exact h1 hh

/-- Setting an absent key appends the binding. -/
theorem mapSet_eq_append (k : String) (v : MEntry) (s : List (String × MEntry))
    (h : ∀ kv ∈ s, ¬ kv.1 = k) : mapSet k v s = s ++ [(k, v)] := by
  induction s with
  | nil => rfl
  | cons kv t ih =>
    simp only [mapSet, if_neg (h kv (by simp))]
    rw [ih (fun kv' hkv' => h kv' (by simp [hkv']))]
    rfl

/-- A successful lookup exhibits a member with that key. -/
theorem mapGet_some_mem {k : String} {e : MEntry} {s : List (String × MEntry)}
    (h : mapGet k s = some e) : (k, e) ∈ s := by
  induction s with
  | nil => simp [mapGet] at h
  | cons kv t ih =>
    by_cases h1 : kv.1 = k
    · rw [mapGet, if_pos h1] at h
      have he := Option.some_inj.mp h
      refine List.mem_cons.mpr (Or.inl ?_)
      rw [← h1, ← he]
    · rw [mapGet, if_neg h1] at h
      exact List.mem_cons_of_mem kv (ih h)

/-- A failed lookup means no member carries that key. -/
theorem mapGet_none_not_mem {k : String} {s : List (String × MEntry)}
    (h : mapGet k s = none) : ∀ kv ∈ s, ¬ kv.1 = k := by
  induction s with
  | nil => simp
  | cons kv t ih =>
    by_cases h1 : kv.1 = k
    · rw [mapGet, if_pos h1] at h
      simp at h
    · rw [mapGet, if_neg h1] at h
      intro kv' hkv'
      rcases List.mem_cons.mp hkv' with hh | hh
      · rw [hh]
        exact h1
      · exact ih h kv' hh

/-- Replacing a value in place leaves the projection of the other
positions unchanged; a filter that drops both the old and the new value at
the updated key therefore sees the same list. -/
theorem filter_values_mapSet (db : String → Option String) (k : String) (v : MEntry)
    (s : List (String × MEntry))
    (hval : ∀ kv ∈ s, kv.1 = k → isCable db kv.2.m = true) (hv : isCable db v.m = true)
    (hpresent : ¬ mapGet k s = none) :
    ((mapSet k v s).map (fun kv => kv.2.m)).filter (fun m => !(isCable db m)) =
      (s.map (fun kv => kv.2.m)).filter (fun m => !(isCable db m)) := by
  induction s with
  | nil => simp [mapGet] at hpresent
  | cons kv t ih =>
    by_cases h1 : kv.1 = k
    · have hc := hval kv (by simp) h1
      simp only [mapSet, if_pos h1, List.map_cons, List.filter_cons]
      rw [if_neg (by simp [hv]), if_neg (by simp [hc])]
    · rw [mapGet, if_neg h1] at hpresent
      simp only [mapSet, if_neg h1, List.map_cons, List.filter_cons]
      rw [ih (fun kv' hkv' => hval kv' (by simp [hkv'])) hpresent]

/-- Among the stored values, the ones carrying a given cable id are
exactly the value stored under that key. -/
theorem filter_values_by_id (db : String → Option String) (x : String)
    (s : List (String × MEntry)) (e : MEntry)
    (hx : isCableId db x = true)
    (hnodup : (s.map Prod.fst).Nodup)
    (hentries : ∀ kv ∈ s,
      (isCableId db kv.2.m.id = true ∧ kv.1 = kv.2.m.id) ∨
      (isCableId db kv.2.m.id = false ∧ ¬ kv.1 = x))
    (hget : mapGet x s = some e) :
    (s.map (fun kv => kv.2.m)).filter (fun m => m.id = x) = [e.m] := by
  induction s with
  | nil => simp [mapGet] at hget
  | cons kv t ih =>
    have hnod := List.nodup_cons.mp
      (show (kv.1 :: t.map Prod.fst).Nodup by rw [List.map_cons] at hnodup; exact hnodup)
    by_cases h1 : kv.1 = x
    · rw [mapGet, if_pos h1] at hget
      have he : kv.2 = e := Option.some_inj.mp hget
      rcases hentries kv (by simp) with ⟨hc, hk⟩ | ⟨hc, hne⟩
      · have hid : kv.2.m.id = x := by rw [← hk, h1]
        simp only [List.map_cons, List.filter_cons]
        rw [if_pos (by simp [hid])]
        have hrest : (t.map (fun kv => kv.2.m)).filter (fun m => m.id = x) = [] := by
          rw [List.filter_eq_nil]
          intro m' hm'
          rcases List.mem_map.mp hm' with ⟨kv', hkv', rfl⟩
          simp only [decide_eq_true_eq]
          intro hmx
          rcases hentries kv' (List.mem_cons_of_mem kv hkv') with ⟨hc', hk'⟩ | ⟨hc', hne'⟩
          · have hkk : kv'.1 = kv.1 := by rw [hk', hmx, ← h1]
            exact hnod.1 (hkk ▸ List.mem_map_of_mem Prod.fst hkv')
          · rw [hmx] at hc'
            rw [hc'] at hx
            exact Bool.false_ne_true hx
        rw [hrest, he]
      · exact absurd h1 hne
    · rw [mapGet, if_neg h1] at hget
      have hkvid : ¬ kv.2.m.id = x := by
        rcases hentries kv (by simp) with ⟨hc, hk⟩ | ⟨hc, _⟩
        · intro hh
          exact h1 (by rw [hk, hh])
        · intro hh
          rw [hh] at hc
          rw [hc] at hx
          exact Bool.false_ne_true hx
      simp only [List.map_cons, List.filter_cons]
      rw [if_neg (by simpa using hkvid)]
      exact ih hnod.2 (fun kv' hkv' => hentries kv' (by simp [hkv'])) hget

/-- Merged quantity of a group of same-id cable lines, as accumulated by
the merge loop: the first line's quantity, then max with each later line
(JavaScript zero-is-falsy handling included). -/
def mergedQty (g : List Material) : ℚ :=
  match g with
  | [] => 0
  | first :: rest =>
    rest.foldl (fun q it => max (jsOr q 1) (jsOr it.quantity 1)) first.quantity

/-- Appending one more line to a nonempty group maxes its quantity in. -/
theorem mergedQty_append (f : Material) (r : List Material) (it : Material) :
    mergedQty ((f :: r) ++ [it]) =
      max (jsOr (mergedQty (f :: r)) 1) (jsOr it.quantity 1) := by
  simp [mergedQty, List.foldl_append]

/-- Invariant of the merge loop state after processing a prefix of the
items. -/
structure MergeInv (db : String → Option String) (k : ℕ → String) (ids : List String)
    (processed : List Material) (st : List (String × MEntry) × ℕ) : Prop where
  nodup : (st.1.map Prod.fst).Nodup
  bound : ∀ kv ∈ st.1, kv.1 ∈ ids ∨ ∃ m, m < st.2 ∧ kv.1 = "__" ++ k m
  entries : ∀ kv ∈ st.1,
    (isCableId db kv.2.m.id = true ∧ kv.1 = kv.2.m.id) ∨
    (isCableId db kv.2.m.id = false ∧ ∃ m, m < st.2 ∧ kv.1 = "__" ++ k m)
  vids : ∀ kv ∈ st.1, kv.2.m.id ∈ ids
  noncable : (st.1.map (fun kv => kv.2.m)).filter (fun m => !(isCable db m)) =
    processed.filter (fun it => !(isCable db it))
  groups : ∀ x : String, x ∈ ids → isCableId db x = true →
    (mapGet x st.1 = none ∧
      processed.filter (fun it => isCable db it && it.id = x) = []) ∨
    (∃ e, mapGet x st.1 = some e ∧
      processed.filter (fun it => isCable db it && it.id = x) ≠ [] ∧
      e.m.id = x ∧
      e.m.quantity = mergedQty (processed.filter (fun it => isCable db it && it.id = x)))

/-- The merge-loop invariant survives one step. -/
theorem mergeStep_inv (db : String → Option String) (k : ℕ → String) (ids : List String)
    (hinj : ∀ n n', k n = k n' → n = n') (hfresh : ∀ n, "__" ++ k n ∉ ids)
    (it : Material) (hid : it.id ∈ ids) (processed : List Material)
    (st : List (String × MEntry) × ℕ) (hinv : MergeInv db k ids processed st) :
    MergeInv db k ids (processed ++ [it]) (mergeStep db k st it) := by
  obtain ⟨hnodup, hbound, hentries, hvids, hnoncable, hgroups⟩ := hinv
  by_cases hc : isCable db it = true
  · have hcid : isCableId db it.id = true := hc
    cases hget : mapGet it.id st.1 with
    | none =>
      have hstep : mergeStep db k st it =
          (mapSet it.id ⟨it, some [it.description]⟩ st.1, st.2) := by
        simp [mergeStep, hc, hget]
      rw [hstep]
      have habs := mapGet_none_not_mem hget
      have happ := mapSet_eq_append it.id ⟨it, some [it.description]⟩ st.1 habs
      refine ⟨nodup_keys_mapSet _ _ _ hnodup, ?_, ?_, ?_, ?_, ?_⟩
      · intro kv hkv
        rcases mem_mapSet_cases kv _ _ _ hkv with h | h
        · exact Or.inl (by rw [h.1]; exact hid)
        · exact hbound kv h
      · intro kv hkv
        rcases mem_mapSet_cases kv _ _ _ hkv with h | h
        · exact Or.inl (by rw [h.1, h.2]; exact ⟨hcid, rfl⟩)
        · exact hentries kv h
      · intro kv hkv
        rcases mem_mapSet_cases kv _ _ _ hkv with h | h
        · rw [h.2]
          exact hid
        · exact hvids kv h
      · rw [happ]
        simp only [List.map_append, List.filter_append]
        rw [hnoncable]
        simp [hc]
      · intro x hx hxc
        rw [mapGet_mapSet]
        by_cases hxi : x = it.id
        · rw [if_pos hxi]
          rcases hgroups x hx hxc with ⟨_, hemp⟩ | ⟨e, hge, _, _, _⟩
          · rw [hxi] at hemp
            refine Or.inr ⟨⟨it, some [it.description]⟩, rfl, ?_, hxi.symm, ?_⟩
            · simp [List.filter_append, hemp, hc, hxi]
            · simp [List.filter_append, hemp, hc, hxi, mergedQty]
          · rw [hxi, hget] at hge
            simp at hge
        · rw [if_neg hxi]
          have hne2 : ¬ it.id = x := fun hh => hxi hh.symm
          have hfil : (processed ++ [it]).filter (fun i => isCable db i && i.id = x) =
              processed.filter (fun i => isCable db i && i.id = x) := by
            simp [List.filter_append, hne2]
          rw [hfil]
          exact hgroups x hx hxc
    | some e =>
      have hmem := mapGet_some_mem hget
      have hecable : isCableId db e.m.id = true ∧ it.id = e.m.id := by
        rcases hentries (it.id, e) hmem with h | ⟨_, m, _, hm⟩
        · exact ⟨h.1, h.2⟩
        · exact absurd (hm ▸ hid) (hfresh m)
      set vB : MEntry :=
        ⟨{ e.m with
            quantity := max (jsOr e.m.quantity 1) (jsOr it.quantity 1),
            description :=
              joinReasons ((e.reasons.map (fun rs => addReason rs it.description)).getD []) },
          e.reasons.map (fun rs => addReason rs it.description)⟩ with hvB
      have hstep : mergeStep db k st it = (mapSet it.id vB st.1, st.2) := by
        simp [mergeStep, hc, hget, hvB]
      rw [hstep]
      refine ⟨nodup_keys_mapSet _ _ _ hnodup, ?_, ?_, ?_, ?_, ?_⟩
      · intro kv hkv
        rcases mem_mapSet_cases kv _ _ _ hkv with h | h
        · exact Or.inl (by rw [h.1]; exact hid)
        · exact hbound kv h
      · intro kv hkv
        rcases mem_mapSet_cases kv _ _ _ hkv with h | h
        · refine Or.inl ?_
          rw [h.1, h.2]
          exact ⟨by rw [show vB.m.id = e.m.id from rfl]; rw [← hecable.2]; exact hcid,
            hecable.2.trans rfl⟩
        · exact hentries kv h
      · intro kv hkv
        rcases mem_mapSet_cases kv _ _ _ hkv with h | h
        · rw [h.2]
          show e.m.id ∈ ids
          rw [← hecable.2]
          exact hid
        · exact hvids kv h
      · have hval : ∀ kv ∈ st.1, kv.1 = it.id → isCable db kv.2.m = true := by
          intro kv hkv hk
          rcases hentries kv hkv with h | ⟨_, m, _, hm⟩
          · rw [isCable, ← h.2, hk]
            exact hcid
          · rw [hk] at hm
            exact absurd (hm ▸ hid) (hfresh m)
        have hvcable : isCable db vB.m = true := by
          rw [isCable, show vB.m.id = e.m.id from rfl, ← hecable.2]
          exact hcid
        rw [filter_values_mapSet db it.id vB st.1 hval hvcable (by rw [hget]; simp)]
        rw [hnoncable]
        simp [List.filter_append, hc]
      · intro x hx hxc
        by_cases hxi : x = it.id
        · rcases hgroups x hx hxc with ⟨hge, _⟩ | ⟨e', hge, hne, hid', hqty⟩
          · rw [hxi, hget] at hge
            simp at hge
          · rw [hxi, hget] at hge
            have hee : e = e' := Option.some_inj.mp hge
            subst hee
            refine Or.inr ⟨vB, ?_, ?_, ?_, ?_⟩
            · rw [mapGet_mapSet, if_pos hxi]
            · simp [List.filter_append, hc, hxi]
            · exact hid'
            · rcases hgr : processed.filter (fun i => isCable db i && i.id = x) with
                _ | ⟨f, r⟩
              · exact absurd hgr hne
              · rw [List.filter_append, hgr]
                rw [show ([it].filter (fun i => isCable db i && i.id = x)) = [it] by
                  simp [hc, ← hxi]]
                rw [mergedQty_append]
                show max (jsOr e.m.quantity 1) (jsOr it.quantity 1) = _
                rw [hqty, hgr]
        · rw [mapGet_mapSet, if_neg hxi]
          have hne2 : ¬ it.id = x := fun hh => hxi hh.symm
          have hfil : (processed ++ [it]).filter (fun i => isCable db i && i.id = x) =
              processed.filter (fun i => isCable db i && i.id = x) := by
            simp [List.filter_append, hne2]
          rw [hfil]
          exact hgroups x hx hxc
  · have hstep : mergeStep db k st it =
        (mapSet ("__" ++ k st.2) ⟨it, none⟩ st.1, st.2 + 1) := by
      simp [mergeStep, hc]
    rw [hstep]
    have hnot : ∀ kv ∈ st.1, ¬ kv.1 = "__" ++ k st.2 := by
      intro kv hkv he
      rcases hbound kv hkv with h | ⟨m, hm, hkm⟩
      · exact hfresh st.2 (he ▸ h)
      · rw [hkm] at he
        exact absurd (hinj m st.2 (str_append_left_cancel he)) (Nat.ne_of_lt hm)
    have happ := mapSet_eq_append ("__" ++ k st.2) ⟨it, none⟩ st.1 hnot
    have hcid : isCableId db it.id = false := by
      rw [isCable] at hc
      exact Bool.not_eq_true _ ▸ hc
    refine ⟨nodup_keys_mapSet _ _ _ hnodup, ?_, ?_, ?_, ?_, ?_⟩
    · intro kv hkv
      rcases mem_mapSet_cases kv _ _ _ hkv with h | h
      · exact Or.inr ⟨st.2, Nat.lt_succ_self _, h.1⟩
      · rcases hbound kv h with hh | ⟨m, hm, hkm⟩
        · exact Or.inl hh
        · exact Or.inr ⟨m, Nat.lt_succ_of_lt hm, hkm⟩
    · intro kv hkv
      rcases mem_mapSet_cases kv _ _ _ hkv with h | h
      · exact Or.inr ⟨by rw [h.2]; exact hcid, st.2, Nat.lt_succ_self _, h.1⟩
      · rcases hentries kv h with hh | ⟨hh, m, hm, hkm⟩
        · exact Or.inl hh
        · exact Or.inr ⟨hh, m, Nat.lt_succ_of_lt hm, hkm⟩
    · intro kv hkv
      rcases mem_mapSet_cases kv _ _ _ hkv with h | h
      · rw [h.2]
        exact hid
      · exact hvids kv h
    · rw [happ]
      simp only [List.map_append, List.filter_append]
      rw [hnoncable]
      simp [hc]
    · intro x hx hxc
      have hxf : ¬ x = "__" ++ k st.2 := fun hh => hfresh st.2 (hh ▸ hx)
      rw [mapGet_mapSet, if_neg hxf]
      have hfil : (processed ++ [it]).filter (fun i => isCable db i && i.id = x) =
          processed.filter (fun i => isCable db i && i.id = x) := by
        simp [List.filter_append, hc]
      rw [hfil]
      exact hgroups x hx hxc

/-- Related states project to the same material list. -/
theorem rel_map_values {ids : List String} {s1 s2 : List (String × MEntry)}
    (h : List.Forall₂ (EntryRel ids) s1 s2) :
    s1.map (fun kv => kv.2.m) = s2.map (fun kv => kv.2.m) := by
  induction h with
  | nil => rfl
  | cons hab htail ih =>
    simp only [List.map_cons]
    rw [hab.1, ih]

/-- The merge loop starts in an invariant state. -/
theorem mergeInv_init (db : String → Option String) (k : ℕ → String) (ids : List String) :
    MergeInv db k ids [] ([], 0) := by
  refine ⟨by simp, by simp, by simp, by simp, by simp, ?_⟩
  intro x _ _
  exact Or.inl ⟨rfl, rfl⟩

/-- The merge-loop invariant survives the whole fold. -/
theorem mergeFold_inv (db : String → Option String) (k : ℕ → String) (ids : List String)
    (hinj : ∀ n n', k n = k n' → n = n') (hfresh : ∀ n, "__" ++ k n ∉ ids) :
    ∀ (todo : List Material), (∀ it ∈ todo, it.id ∈ ids) →
      ∀ (processed : List Material) (st : List (String × MEntry) × ℕ),
        MergeInv db k ids processed st →
        MergeInv db k ids (processed ++ todo) (todo.foldl (mergeStep db k) st) := by
  intro todo
  induction todo with
  | nil => intro _ processed st hinv; simpa using hinv
  | cons it t ih =>
    intro hsub processed st hinv
    rw [List.foldl_cons, show processed ++ it :: t = (processed ++ [it]) ++ t by simp]
    exact ih (fun x hx => hsub x (by simp [hx])) (processed ++ [it]) _
      (mergeStep_inv db k ids hinj hfresh it (hsub it (by simp)) processed st hinv)

/-- The invariant holds for the full item list under an admissible key
stream, taking the item ids as the id universe. -/
theorem merge_final_inv (db : String → Option String) (k : ℕ → String)
    (items : List Material) (hg : GoodKeys k items) :
    MergeInv db k (items.map Material.id) items
      (items.foldl (mergeStep db k) ([], 0)) := by
  have hfr : ∀ n, "__" ++ k n ∉ items.map Material.id := by
    intro n hmem
    rcases List.mem_map.mp hmem with ⟨it, hit, hid⟩
    exact hg.2 n it hit hid.symm
  have h := mergeFold_inv db k (items.map Material.id) hg.1 hfr items
    (fun it hit => List.mem_map_of_mem Material.id hit) [] ([], 0)
    (mergeInv_init db k (items.map Material.id))
  simpa using h

/-- On quantities at least 1 the JavaScript q-or-1 fallback vanishes and
the merge accumulator is a plain running maximum. -/
theorem foldl_jsOr_max (r : List Material) :
    ∀ (q : ℚ), 1 ≤ q → (∀ it ∈ r, 1 ≤ it.quantity) →
      r.foldl (fun q it => max (jsOr q 1) (jsOr it.quantity 1)) q =
        r.foldl (fun q it => max q it.quantity) q := by
  induction r with
  | nil => intro q _ _; rfl
  | cons it t ih =>
    intro q hq hr
    have h1 : 1 ≤ it.quantity := hr it (by simp)
    have hq0 : ¬ q = 0 := by intro h; rw [h] at hq; norm_num at hq
    have hi0 : ¬ it.quantity = 0 := by intro h; rw [h] at h1; norm_num at h1
    simp only [List.foldl_cons, jsOr, if_neg hq0, if_neg hi0]
    exact ih (max q it.quantity) (le_trans hq (le_max_left _ _))
      (fun i hi => hr i (by simp [hi]))

/-- Merged quantity of a nonempty group of positive-quantity lines is the
running maximum of the quantities. -/
theorem mergedQty_of_pos (f : Material) (r : List Material)
    (hf : 1 ≤ f.quantity) (hr : ∀ it ∈ r, 1 ≤ it.quantity) :
    mergedQty (f :: r) = r.foldl (fun q it => max q it.quantity) f.quantity := by
  show r.foldl (fun q it => max (jsOr q 1) (jsOr it.quantity 1)) f.quantity = _
  exact foldl_jsOr_max r f.quantity hf hr

/-- In a merge state with duplicate-free keys where every cable value sits
under its own id, the stored cable materials have pairwise distinct ids. -/
theorem pairwise_cable_ids (db : String → Option String) (s : List (String × MEntry))
    (hnodup : (s.map Prod.fst).Nodup)
    (hent : ∀ kv ∈ s, isCable db kv.2.m = true → kv.1 = kv.2.m.id) :
    List.Pairwise (fun a b => isCable db a = true → isCable db b = true → ¬ a.id = b.id)
      (s.map (fun kv => kv.2.m)) := by
  rw [List.pairwise_map]
  have hp : s.Pairwise (fun a b => a.1 ≠ b.1) := (List.pairwise_map).mp hnodup
  refine hp.imp_of_mem ?_
  intro a b ha hb hne hca hcb hid
  exact hne (by rw [hent a ha hca, hent b hb hcb, hid])

/-- When the cable lines of the remaining input have ids distinct from
each other and from the already-stored cable lines, the merge loop only
appends: the stored materials are the processed items in order. -/
theorem mergeFold_distinct (db : String → Option String) (k : ℕ → String)
    (ids : List String) (hinj : ∀ n n', k n = k n' → n = n')
    (hfr : ∀ n, "__" ++ k n ∉ ids) :
    ∀ (todo : List Material), (∀ it ∈ todo, it.id ∈ ids) →
      List.Pairwise
        (fun a b => isCable db a = true → isCable db b = true → ¬ a.id = b.id) todo →
      ∀ (processed : List Material) (st : List (String × MEntry) × ℕ),
        st.1.map (fun kv => kv.2.m) = processed →
        (∀ p ∈ processed, p.id ∈ ids) →
        (∀ kv ∈ st.1, (isCable db kv.2.m = true ∧ kv.1 = kv.2.m.id) ∨
          ∃ m, m < st.2 ∧ kv.1 = "__" ++ k m) →
        (∀ it ∈ todo, isCable db it = true → ∀ p ∈ processed,
          isCable db p = true → ¬ p.id = it.id) →
        (todo.foldl (mergeStep db k) st).1.map (fun kv => kv.2.m) = processed ++ todo := by
  intro todo
  induction todo with
  | nil => intro _ _ processed st hval _ _ _; simpa using hval
  | cons it t ih =>
    intro hsub hpair processed st hval hpids hent hdisj
    rw [List.foldl_cons, show processed ++ it :: t = (processed ++ [it]) ++ t by simp]
    have hid : it.id ∈ ids := hsub it (by simp)
    have hpc := List.pairwise_cons.mp hpair
    by_cases hc : isCable db it = true
    · have hget : mapGet it.id st.1 = none := by
        cases hg : mapGet it.id st.1 with
        | none => rfl
        | some e =>
          exfalso
          have hmem := mapGet_some_mem hg
          rcases hent (it.id, e) hmem with ⟨hec, hek⟩ | ⟨m, _, hkm⟩
          · have hpm : e.m ∈ processed := by
              rw [← hval]
              exact List.mem_map_of_mem _ hmem
            exact hdisj it (by simp) hc e.m hpm hec hek.symm
          · exact hfr m (hkm ▸ hid)
      have hstep : mergeStep db k st it =
          (mapSet it.id ⟨it, some [it.description]⟩ st.1, st.2) := by
        simp [mergeStep, hc, hget]
      rw [hstep]
      have happ := mapSet_eq_append it.id ⟨it, some [it.description]⟩ st.1
        (mapGet_none_not_mem hget)
      refine ih (fun x hx => hsub x (by simp [hx])) hpc.2 (processed ++ [it]) _
        ?_ ?_ ?_ ?_
      · rw [happ, List.map_append, hval]
        rfl
      · intro p hp
        rcases List.mem_append.mp hp with h | h
        · exact hpids p h
        · rw [List.mem_singleton.mp h]
          exact hid
      · intro kv hkv
        rcases mem_mapSet_cases kv _ _ _ hkv with h | h
        · exact Or.inl ⟨by rw [h.2]; exact hc, by rw [h.1, h.2]⟩
        · exact hent kv h
      · intro it' hit' hc' p hp hcp
        rcases List.mem_append.mp hp with h | h
        · exact hdisj it' (by simp [hit']) hc' p h hcp
        · have hpe := List.mem_singleton.mp h
          subst hpe
          exact hpc.1 it' hit' hc hc'
    · have hn : ∀ kv ∈ st.1, ¬ kv.1 = "__" ++ k st.2 := by
        intro kv hkv he
        rcases hent kv hkv with ⟨_, hek⟩ | ⟨m, hm, hkm⟩
        · have hpm : kv.2.m ∈ processed := by
            rw [← hval]
            exact List.mem_map_of_mem _ hkv
          exact hfr st.2 (by rw [← he, hek]; exact hpids _ hpm)
        · rw [hkm] at he
          exact absurd (hinj m st.2 (str_append_left_cancel he)) (Nat.ne_of_lt hm)
      have hstep : mergeStep db k st it =
          (mapSet ("__" ++ k st.2) ⟨it, none⟩ st.1, st.2 + 1) := by
        simp [mergeStep, hc]
      rw [hstep]
      have happ := mapSet_eq_append ("__" ++ k st.2) ⟨it, none⟩ st.1 hn
      refine ih (fun x hx => hsub x (by simp [hx])) hpc.2 (processed ++ [it]) _
        ?_ ?_ ?_ ?_
      · rw [happ, List.map_append, hval]
        rfl
      · intro p hp
        rcases List.mem_append.mp hp with h | h
        · exact hpids p h
        · rw [List.mem_singleton.mp h]
          exact hid
      · intro kv hkv
        rcases mem_mapSet_cases kv _ _ _ hkv with h | h
        · exact Or.inr ⟨st.2, Nat.lt_succ_self _, h.1⟩
        · rcases hent kv h with hh | ⟨m, hm, hkm⟩
          · exact Or.inl hh
          · exact Or.inr ⟨m, Nat.lt_succ_of_lt hm, hkm⟩
      · intro it' hit' hc' p hp hcp
        rcases List.mem_append.mp hp with h | h
        · exact hdisj it' (by simp [hit']) hc' p h hcp
        · have hpe := List.mem_singleton.mp h
          subst hpe
          exact absurd hcp hc

/-- On a list whose cable lines already have pairwise distinct ids, the
merge is the identity. -/
theorem merge_of_distinct (db : String → Option String) (k : ℕ → String)
    (items : List Material) (hg : GoodKeys k items)
    (hpair : List.Pairwise
      (fun a b => isCable db a = true → isCable db b = true → ¬ a.id = b.id) items) :
    mergeCableCoilsInBOM db k items = items := by
  have hfr : ∀ n, "__" ++ k n ∉ items.map Material.id := by
    intro n hmem
    rcases List.mem_map.mp hmem with ⟨it, hit, hid⟩
    exact hg.2 n it hit hid.symm
  have h := mergeFold_distinct db k (items.map Material.id) hg.1 hfr items
    (fun it hit => List.mem_map_of_mem Material.id hit) hpair [] ([], 0) rfl
    (by simp) (by simp) (by simp)
  simpa [mergeCableCoilsInBOM] using h

/-- Concrete catalog with no descriptions, used by the merge witnesses. -/
def witDb : String → Option String := fun _ => none

/-- First concrete admissible key stream. -/
def wk1 : ℕ → String := fun n => String.mk (List.replicate (n + 1) 'a')

/-- Second concrete admissible key stream. -/
def wk2 : ℕ → String := fun n => String.mk (List.replicate (n + 1) 'b')

/-- Concrete BOM with a duplicated cable id around a non-cable line. -/
def witItems : List Material :=
  [⟨"CABLE-A", "run 1", 2, none⟩, ⟨"K1", "clamp", 4, none⟩, ⟨"CABLE-A", "run 2", 5, none⟩]

/-- The first witness key stream is injective. -/
theorem wk1_inj : ∀ n n', wk1 n = wk1 n' → n = n' := by
  intro n n' h
  have hl := congrArg (fun s => s.data.length) h
  simp [wk1] at hl
  omega

/-- The second witness key stream is injective. -/
theorem wk2_inj : ∀ n n', wk2 n = wk2 n' → n = n' := by
  intro n n' h
  have hl := congrArg (fun s => s.data.length) h
  simp [wk2] at hl
  omega

/-- The first witness key stream avoids the witness item ids. -/
theorem wk1_fresh : ∀ n, ∀ it ∈ witItems, ¬ "__" ++ wk1 n = it.id := by
  intro n it hit he
  have hd := congrArg String.data he
  rw [String.data_append] at hd
  fin_cases hit <;> simp [wk1] at hd

/-- The second witness key stream avoids the witness item ids. -/
theorem wk2_fresh : ∀ n, ∀ it ∈ witItems, ¬ "__" ++ wk2 n = it.id := by
  intro n it hit he
  have hd := congrArg String.data he
  rw [String.data_append] at hd
  fin_cases hit <;> simp [wk2] at hd

/-- C8: for any BOM whose line quantities are at least 1, under an
admissible key stream the cable-coil merge (a) never merges non-cable
lines -- the non-cable lines of the output are exactly those of the
input, in order, quantities untouched; (b) merges the cable lines sharing
a catalog id into a single output line whose quantity is the maximum (a
running max, not the sum) of the candidates' quantities; and (c) is
idempotent -- re-merging an already-merged list under any admissible key
stream returns it unchanged, items and quantities alike. -/
theorem mergeCableCoils_spec (db : String → Option String) (k : ℕ → String)
    (items : List Material) (hg : GoodKeys k items)
    (hq : ∀ it ∈ items, 1 ≤ it.quantity) :
    ((mergeCableCoilsInBOM db k items).filter (fun m => !(isCable db m)) =
      items.filter (fun it => !(isCable db it))) ∧
    (∀ x f r, isCableId db x = true →
      items.filter (fun it => isCable db it && it.id = x) = f :: r →
      ((mergeCableCoilsInBOM db k items).filter (fun m => m.id = x)).map Material.quantity =
        [r.foldl (fun q it => max q it.quantity) f.quantity]) ∧
    (∀ k2, GoodKeys k2 (mergeCableCoilsInBOM db k items) →
      mergeCableCoilsInBOM db k2 (mergeCableCoilsInBOM db k items) =
        mergeCableCoilsInBOM db k items) := by
  have hfr : ∀ n, "__" ++ k n ∉ items.map Material.id := by
    intro n hmem
    rcases List.mem_map.mp hmem with ⟨it, hit, hid⟩
    exact hg.2 n it hit hid.symm
  obtain ⟨hnodup, hbound, hentries, hvids, hnoncable, hgroups⟩ := merge_final_inv db k items hg
  refine ⟨hnoncable, ?_, ?_⟩
  · intro x f r hxc hfil
    have hfmem : f ∈ items.filter (fun it => isCable db it && it.id = x) := by
      rw [hfil]
      simp
    have hfm := List.mem_filter.mp hfmem
    have hfx : f.id = x := by
      have hh := hfm.2
      simp only [Bool.and_eq_true, decide_eq_true_eq] at hh
      exact hh.2
    have hxids : x ∈ items.map Material.id := hfx ▸ List.mem_map_of_mem Material.id hfm.1
    rcases hgroups x hxids hxc with ⟨_, hemp⟩ | ⟨e, hget, _, _, hqty⟩
    · rw [hfil] at hemp
      simp at hemp
    · have hent' : ∀ kv ∈ (items.foldl (mergeStep db k) ([], 0)).1,
          (isCableId db kv.2.m.id = true ∧ kv.1 = kv.2.m.id) ∨
          (isCableId db kv.2.m.id = false ∧ ¬ kv.1 = x) := by
        intro kv hkv
        rcases hentries kv hkv with h | ⟨h, m, _, hkm⟩
        · exact Or.inl h
        · refine Or.inr ⟨h, ?_⟩
          rw [hkm]
          intro he
          exact hfr m (he ▸ hxids)
      have hby := filter_values_by_id db x (items.foldl (mergeStep db k) ([], 0)).1 e
        hxc hnodup hent' hget
      rw [show mergeCableCoilsInBOM db k items =
        ((items.foldl (mergeStep db k) ([], 0)).1).map (fun kv => kv.2.m) from rfl, hby]
      simp only [List.map_cons, List.map_nil]
      have hfq : 1 ≤ f.quantity := hq f hfm.1
      have hrq : ∀ i ∈ r, 1 ≤ i.quantity := by
        intro i hi
        have him : i ∈ items.filter (fun it => isCable db it && it.id = x) := by
          rw [hfil]
          simp [hi]
        exact hq i (List.mem_filter.mp him).1
      rw [hqty, hfil, mergedQty_of_pos f r hfq hrq]
  · intro k2 hg2
    have hent2 : ∀ kv ∈ (items.foldl (mergeStep db k) ([], 0)).1,
        isCable db kv.2.m = true → kv.1 = kv.2.m.id := by
      intro kv hkv hc
      rcases hentries kv hkv with h | ⟨h, _⟩
      · exact h.2
      · rw [isCable] at hc
        rw [hc] at h
        exact Bool.noConfusion h
    exact merge_of_distinct db k2 (mergeCableCoilsInBOM db k items) hg2
      (pairwise_cable_ids db _ hnodup hent2)

/-- Witness for C8: on the concrete BOM the two CABLE-A lines of
quantities 2 and 5 merge into one line of quantity max(2,5) = 5. -/
theorem mergeCableCoils_spec_witness :
    GoodKeys wk1 witItems ∧ (∀ it ∈ witItems, 1 ≤ it.quantity) ∧
    ((mergeCableCoilsInBOM witDb wk1 witItems).filter
        (fun m => m.id = "CABLE-A")).map Material.quantity = [5] := by
  have hg : GoodKeys wk1 witItems := ⟨wk1_inj, wk1_fresh⟩
  have hq : ∀ it ∈ witItems, 1 ≤ it.quantity := by
    intro it hit
    fin_cases hit <;> norm_num
  refine ⟨hg, hq, ?_⟩
  have h := (mergeCableCoils_spec witDb wk1 witItems hg hq).2.1 "CABLE-A"
    ⟨"CABLE-A", "run 1", 2, none⟩ [⟨"CABLE-A", "run 2", 5, none⟩] (by decide) (by decide)
  rw [h]
  norm_num [List.foldl]

/-- C9: the cable-coil merge is deterministic in its observable output:
the internal Math.random() map keys (modelled as an arbitrary admissible
key stream) do not influence the returned list, so two calls on the same
(catalog, BOM) input yield identical results. -/
theorem merge_key_stream_irrelevant (db : String → Option String)
    (k1 k2 : ℕ → String) (items : List Material)
    (h1 : GoodKeys k1 items) (h2 : GoodKeys k2 items) :
    mergeCableCoilsInBOM db k1 items = mergeCableCoilsInBOM db k2 items := by
  have hf1 : ∀ n, "__" ++ k1 n ∉ items.map Material.id := by
    intro n hmem
    rcases List.mem_map.mp hmem with ⟨it, hit, hid⟩
    exact h1.2 n it hit hid.symm
  have hf2 : ∀ n, "__" ++ k2 n ∉ items.map Material.id := by
    intro n hmem
    rcases List.mem_map.mp hmem with ⟨it, hit, hid⟩
    exact h2.2 n it hit hid.symm
  exact rel_map_values
    (mergeFold_rel db k1 k2 (items.map Material.id) h1.1 h2.1 hf1 hf2 items
      (fun it hit => List.mem_map_of_mem Material.id hit) [] [] 0
      List.Forall₂.nil (by simp) (by simp))

/-- Witness for C9: two concrete, distinct admissible key streams produce
the same merged BOM on the concrete item list. -/
theorem merge_key_stream_irrelevant_witness :
    GoodKeys wk1 witItems ∧ GoodKeys wk2 witItems ∧
    mergeCableCoilsInBOM witDb wk1 witItems = mergeCableCoilsInBOM witDb wk2 witItems := by
  have h1 : GoodKeys wk1 witItems := ⟨wk1_inj, wk1_fresh⟩
  have h2 : GoodKeys wk2 witItems := ⟨wk2_inj, wk2_fresh⟩
  exact ⟨h1, h2, merge_key_stream_irrelevant witDb wk1 wk2 witItems h1 h2⟩

end EssaiPV
